import Mathlib

/-!
# Date formatting (`src/date/format.js`)

A shallow embedding of the date formatter of the Globalize library and a
verification of its documented behaviour.

The formatter is the callback-driven `pattern.replace( datePatternRe, ... )`
of `src/date/format.js`. It is embedded as follows.

* JavaScript values that flow through the variable `ret` are the type `Value`
  (`undefined`, a number, or a string). Numbers are exact integers.
* A thrown exception is the `error` side of `Except JSError`.
* The `Date` object is a record of its local calendar fields; `setDate` and
  `getDay` follow the day arithmetic of ECMAScript (`MakeDay`, `YearFromTime`,
  `WeekDay`) for a time zone with a fixed offset.
* The Cldr instance and the helper modules imported by `format.js`, whose code
  is not part of the sources at hand, are parameters (`Cldr`, `Helpers`).
* The pattern regular expression and the string padder are modelled from the
  specification; quoted literal text is one pattern element.
* The object `date` is shared by all calls of the callback, so the replacement
  loop passes its state from call to call (`formatElementState`,
  `replaceElementsState`). `formatElement` and `replaceElements` are the same
  callback and loop for a state that stays fixed; `format_eq` shows that this
  is what the code does.
* Strings are lists of Unicode characters; every character a pattern element
  inspects (`charAt( 0 )`, the run length) belongs to the ASCII field letters.
-/

namespace Globalize

/-! ## JavaScript values and errors -/

/-- The exceptions the formatter can raise: `new Error( "Not implemented" )`
and the `TypeError` of a method call on a value that has no such method. -/
inductive JSError where
  | notImplemented
  | typeError
  deriving DecidableEq, Repr

instance exceptDecidableEq : DecidableEq (Except JSError String)
  | .ok a, .ok b => if e : a = b then isTrue (by rw [e]) else isFalse (fun k => e (by cases k; rfl))
  | .error a, .error b =>
    if e : a = b then isTrue (by rw [e]) else isFalse (fun k => e (by cases k; rfl))
  | .ok _, .error _ => isFalse (fun k => by cases k)
  | .error _, .ok _ => isFalse (fun k => by cases k)

/-- The JavaScript values held by the variable `ret` of the callback and
returned by the locale-data accessor. -/
inductive Value where
  | undefined
  | number (n : Int)
  | string (s : String)
  deriving DecidableEq, Repr

/-- The conversion `String( v )`, which `String.prototype.replace` also applies
to the value returned by its callback. -/
def Value.toJSString : Value → String
  | .undefined => "undefined"
  | .number n => toString n
  | .string s => s

/-- Truthiness of a value, as tested by the operator `||`. -/
def Value.truthy : Value → Bool
  | .undefined => false
  | .number n => decide (n ≠ 0)
  | .string s => decide (s ≠ "")

/-- The expression `a || b`. -/
def Value.orElse (a b : Value) : Value :=
  if a.truthy then a else b

/-! ## Calendar arithmetic of the `Date` object (ECMAScript, fixed offset) -/

/-- The day number of the first day of year `y`, day 0 being 1970-01-01. -/
def dayFromYear (y : Int) : Int :=
  365 * (y - 1970) + (y - 1969) / 4 - (y - 1901) / 100 + (y - 1601) / 400

/-- The number of days of year `y`. -/
def daysInYear (y : Int) : Int :=
  if y % 4 ≠ 0 then 365 else if y % 100 ≠ 0 then 366 else if y % 400 ≠ 0 then 365 else 366

/-- The number of days before month `m` (0-based) in a year of `diy` days. -/
def monthStart (diy : Int) (m : Nat) : Int :=
  let leap : Int := diy - 365
  match m with
  | 0 => 0
  | 1 => 31
  | 2 => 59 + leap
  | 3 => 90 + leap
  | 4 => 120 + leap
  | 5 => 151 + leap
  | 6 => 181 + leap
  | 7 => 212 + leap
  | 8 => 243 + leap
  | 9 => 273 + leap
  | 10 => 304 + leap
  | 11 => 334 + leap
  | _ => 365 + leap

/-- The day number `MakeDay( year, month, date )`. -/
def makeDay (year : Int) (month : Nat) (date : Int) : Int :=
  let ym := year + (month / 12 : Nat)
  dayFromYear ym + monthStart (daysInYear ym) (month % 12) + date - 1

/-- The year that contains day number `d`: the largest `y` with
`dayFromYear y ≤ d`. The mean year length 146097 / 400 gives an estimate that
is off by at most one. -/
def yearFromDay (d : Int) : Int :=
  let est := 1970 + d * 400 / 146097
  if dayFromYear (est + 1) ≤ d then est + 1
  else if dayFromYear est ≤ d then est
  else est - 1

/-- The month (0-based) that contains the 0-based day `k` of a year of `diy`
days. -/
def monthFromDayInYear (diy : Int) (k : Int) : Nat :=
  ((List.range 12).filter fun m => decide (monthStart diy (m + 1) ≤ k)).length

/-- The `Date` instance, seen through its local-time accessors. -/
structure Date where
  getFullYear : Int
  getMonth : Nat
  getDate : Nat
  getHours : Nat
  getMinutes : Nat
  getSeconds : Nat
  getMilliseconds : Nat
  getTimezoneOffset : Int
  deriving DecidableEq, Repr

/-- The weekday `getDay()`, 0 for Sunday; day 0 (1970-01-01) is a Thursday. -/
def Date.getDay (date : Date) : Nat :=
  ((makeDay date.getFullYear date.getMonth date.getDate + 4) % 7).toNat

/-- The effect of `setDate( dt )`: the year and month stay, the day of the
month becomes `dt`, and the result is normalised to a calendar date. -/
def Date.setDate (date : Date) (dt : Int) : Date :=
  let day := makeDay date.getFullYear date.getMonth dt
  let y := yearFromDay day
  let k := day - dayFromYear y
  let m := monthFromDayInYear (daysInYear y) k
  { date with
    getFullYear := y
    getMonth := m
    getDate := (k - monthStart (daysInYear y) m + 1).toNat }

/-! ## The collaborators of `format.js` -/

/-- The Cldr instance, as far as `format.js` reads it: the accessor
`cldr.main( path )`, which returns a string, a number or `undefined`, and the
supplemental data `cldr.supplemental.timeData.preferred()` and
`cldr.supplemental.weekData.minDays()`. A path is the list of its segments in
the order written in the code; a nested one-element array stands for its
element. -/
structure Cldr where
  main : List Value → Value
  preferred : String
  minDays : Int

/-- The helper modules imported by `format.js` (`./day-of-week`,
`./day-of-year`, `./first-day-of-week`, `./milliseconds-in-day`, `./start-of`,
`./timezone/hour-format`, `./week-days`). Their code is not among the sources,
so the formatter is verified for every choice of them. The offset formatter
receives whatever value the code passes as its template and may throw. -/
structure Helpers where
  dateDayOfWeek : Date → Cldr → Int
  dateDayOfYear : Date → Int
  dateFirstDayOfWeek : Cldr → Int
  dateMillisecondsInDay : Date → Int
  dateStartOf : Date → String → Date
  dateTimezoneHourFormat : Date → Value → Except JSError String
  dateWeekDays : List String

/-! ## String primitives -/

/-- The expression `str.charAt( 0 )`: the first character as a string, or the
empty string. -/
def charAt0 (str : String) : String :=
  String.mk (str.data.take 1)

/-- The expression `str.substr( start )`: a negative start counts from the end
of the string. -/
def substr (str : String) (start : Int) : String :=
  let len : Int := str.length
  let from_ : Int := if start < 0 then max (len + start) 0 else min start len
  String.mk (str.data.drop from_.toNat)

/-- Modelled from the spec: the numeric padder `../util/string/pad`, whose code
is not among the sources. Section 4.3: the decimal string of the value,
left-padded with `0` to at least `count` characters and never truncated. -/
def stringPad (str : String) (count : Nat) : String :=
  String.mk (List.replicate (count - str.length) '0' ++ str.data)

/-- The expansion of the `$` patterns of a replacement string when the regular
expression has no capture group: `$$`, `$&`, the text before the match and the
text after it. -/
def getSubstitution (matched before after : List Char) : List Char → List Char
  | [] => []
  | [c] => [c]
  | c :: d :: rest =>
    if c = '$' then
      if d = '$' then '$' :: getSubstitution matched before after rest
      else if d = '&' then matched ++ getSubstitution matched before after rest
      else if d = Char.ofNat 96 then before ++ getSubstitution matched before after rest
      else if d = Char.ofNat 39 then after ++ getSubstitution matched before after rest
      else c :: getSubstitution matched before after (d :: rest)
    else c :: getSubstitution matched before after (d :: rest)

/-- The search of `replaceFirst`: `before` holds, reversed, the text already
passed. -/
def replaceFirstFrom (pat rep : List Char) (before : List Char) : List Char → List Char
  | [] => []
  | c :: cs =>
    if (c :: cs).take pat.length = pat then
      getSubstitution pat before.reverse ((c :: cs).drop pat.length) rep
        ++ (c :: cs).drop pat.length
    else c :: replaceFirstFrom pat rep (c :: before) cs

/-- The expression `str.replace( /pat/, rep )` for a regular expression that
matches the non-empty literal text `pat`: the first occurrence is replaced. -/
def replaceFirst (str pat rep : String) : String :=
  String.mk (replaceFirstFrom pat.data rep.data [] str.data)

/-- The expression `Math.ceil( a / b )` for integers `a` and `b > 0`. -/
def ceilDiv (a b : Int) : Int :=
  -((-a) / b)

/-- The expression `Math.round( x * Math.pow( 10, e ) )` for an integer `x`:
rounding to the nearest integer, a half rounding up. -/
def roundScaled (x : Int) (e : Int) : Int :=
  if 0 ≤ e then x * 10 ^ e.toNat
  else (2 * x + 10 ^ (-e).toNat) / (2 * 10 ^ (-e).toNat)

/-! ## Pattern tokenizer -/

/-- The field letters: those of the list in section 4.1 of the specification
together with `U` and `Z`, which its resolution table treats as field runs. -/
def fieldLetters : List Char :=
  "GyYuUQqMLwWdDFgecEahHKkmsSAzZOvVXxj".data

/-- The quote character `'`, the delimiter of literal text in the pattern
syntax the source refers to (UTS 35, date format patterns). -/
def quoteChar : Char :=
  Char.ofNat 39

/-- The element list with the character `c` put in front of its first element. -/
def prependChar (c : Char) : List String → List String
  | [] => [String.mk [c]]
  | t :: ts => String.mk (c :: t.data) :: ts

/-- The scan of the tokenizer; `inQuote` tells that the text read so far ends
inside quoted text. Outside quoted text a quote that is followed by another
quote opens quoted text, which ends with the next quote; a quote that no quote
follows is an ordinary character. -/
def tokenizeFrom : (inQuote : Bool) → List Char → List String
  | _, [] => []
  | true, c :: cs =>
    if c = quoteChar then String.mk [c] :: tokenizeFrom false cs
    else prependChar c (tokenizeFrom true cs)
  | false, c :: cs =>
    if c = quoteChar then
      if quoteChar ∈ cs then prependChar c (tokenizeFrom true cs)
      else String.mk [c] :: tokenizeFrom false cs
    else
      match tokenizeFrom false cs with
      | [] => [String.mk [c]]
      | t :: ts =>
        if c ∈ fieldLetters ∧ t.data.head? = some c then String.mk (c :: t.data) :: ts
        else String.mk [c] :: t :: ts

/-- Modelled from the spec: the matches of the pattern regular expression
`./pattern-re`, whose code is not among the sources. Section 4.1: every maximal
run of one identical field letter is one element; quoted literal text, from a
quote to the next quote and with both quotes, is one element, which the callback
passes through unchanged; every other character is an element of its own. -/
def tokenize (cs : List Char) : List String :=
  tokenizeFrom false cs

/-! ## Field resolver: the callback of `pattern.replace` -/

/-- The array `widths` of `format.js`. -/
def widths : List String :=
  ["abbreviated", "wide", "narrow"]

/-- The expression `widths[ i ]`, `undefined` outside the array. -/
def widthAt (i : Nat) : Value :=
  match widths.get? i with
  | some w => .string w
  | none => .undefined

/-- The state of the callback when the `switch` is left: `default` returns the
matched text, every other case leaves the variables `ret` and `pad`. -/
inductive Outcome where
  | literal
  | value (ret : Value) (pad : Bool)
  deriving DecidableEq, Repr

/-- The year text of `case "y"` and `case "Y"`: `String( year )`, cut to its
last two characters when the run length is 2. -/
def yearText (year : Int) (length : Nat) : Value :=
  let ret : String := toString year
  .string (if length = 2 then substr ret ((ret.length : Int) - 2) else ret)

/-- The expression `dateWeekDays[ date.getDay() ]`. -/
def weekDayKey (h : Helpers) (date : Date) : Value :=
  match h.dateWeekDays.get? date.getDay with
  | some d => .string d
  | none => .undefined

/-- The statements of `case "E"`, which `case "e"` and `case "c"` fall into when
the run is longer than 2. -/
def caseE (h : Helpers) (date : Date) (cldr : Cldr) (chr : String) (length : Nat) : Value :=
  let ret : Value := weekDayKey h date
  let form : Value := .string (if chr = "c" then "stand-alone" else "format")
  if length = 6 then
    (cldr.main [.string "dates/calendars/gregorian/days", form, .string "short", ret]).orElse
      (cldr.main [.string "dates/calendars/gregorian/days", form, .string "abbreviated", ret])
  else
    cldr.main [.string "dates/calendars/gregorian/days", form,
      widthAt (if length < 3 then 0 else length - 3), ret]

/-- The statements of `case "x"`. -/
def caseLowerX (h : Helpers) (date : Date) (length : Nat) : Except JSError Outcome :=
  let ret : String :=
    if length = 1 then "+HH;-HH"
    else if length % 2 ≠ 0 then "+HH:mm;-HH:mm" else "+HHmm;-HHmm"
  match h.dateTimezoneHourFormat date (.string ret) with
  | .error e => .error e
  | .ok r => .ok (.value (.string r) false)

/-- The statements of `case "X"`, which `case "V"` falls into and which fall
into `case "x"` for a non-zero offset. -/
def caseX (h : Helpers) (date : Date) (length : Nat) : Except JSError Outcome :=
  if date.getTimezoneOffset = 0 then .ok (.value (.string "Z") false)
  else caseLowerX h date length

/-- The statements of `case "O"`. -/
def caseO (h : Helpers) (date : Date) (cldr : Cldr) (length : Nat) : Except JSError Outcome :=
  if date.getTimezoneOffset = 0 then
    .ok (.value (cldr.main [.string "dates/timeZoneNames/gmtZeroFormat"]) false)
  else
    match h.dateTimezoneHourFormat date
        (if length < 4 then .string "+H;-H"
          else cldr.main [.string "dates/timeZoneNames/hourFormat"]) with
    | .error e => .error e
    | .ok r =>
      match cldr.main [.string "dates/timeZoneNames/gmtFormat"] with
      | .string g => .ok (.value (.string (replaceFirst g "\x7b0\x7d" r)) false)
      | _ => .error .typeError

/-- The `switch ( chr )` of the callback. -/
def switchChr (h : Helpers) (date : Date) (cldr : Cldr) (chr : String) (length : Nat) :
    Except JSError Outcome :=
  match chr with
  | "G" =>
    .ok (.value (cldr.main [.string "dates/calendars/gregorian/eras",
      .string (if length ≤ 3 then "eraAbbr" else if length = 4 then "eraNames" else "eraNarrow"),
      .number (if date.getFullYear < 0 then 0 else 1)]) false)
  | "y" => .ok (.value (yearText date.getFullYear length) true)
  | "Y" =>
    .ok (.value (yearText (date.setDate ((date.getDate : Int) + 7
      - (h.dateDayOfWeek date cldr - h.dateFirstDayOfWeek cldr) - cldr.minDays)).getFullYear
      length) true)
  | "u" => .error .notImplemented
  | "U" => .error .notImplemented
  | "Q" =>
    if length ≤ 2 then .ok (.value (.number (ceilDiv ((date.getMonth : Int) + 1) 3)) true)
    else .ok (.value (cldr.main [.string "dates/calendars/gregorian/quarters", .string "format",
      widthAt (length - 3), .number (ceilDiv ((date.getMonth : Int) + 1) 3)]) false)
  | "q" =>
    if length ≤ 2 then .ok (.value (.number (ceilDiv ((date.getMonth : Int) + 1) 3)) true)
    else .ok (.value (cldr.main [.string "dates/calendars/gregorian/quarters",
      .string "stand-alone", widthAt (length - 3),
      .number (ceilDiv ((date.getMonth : Int) + 1) 3)]) false)
  | "M" =>
    if length ≤ 2 then .ok (.value (.number ((date.getMonth : Int) + 1)) true)
    else .ok (.value (cldr.main [.string "dates/calendars/gregorian/months", .string "format",
      widthAt (length - 3), .number ((date.getMonth : Int) + 1)]) false)
  | "L" =>
    if length ≤ 2 then .ok (.value (.number ((date.getMonth : Int) + 1)) true)
    else .ok (.value (cldr.main [.string "dates/calendars/gregorian/months",
      .string "stand-alone", widthAt (length - 3), .number ((date.getMonth : Int) + 1)]) false)
  | "w" =>
    let ret := h.dateDayOfWeek (h.dateStartOf date "year") cldr
    .ok (.value (.number (ceilDiv (h.dateDayOfYear date + ret) 7
      - (if 7 - ret ≥ cldr.minDays then 0 else 1))) true)
  | "W" =>
    let ret := h.dateDayOfWeek (h.dateStartOf date "month") cldr
    .ok (.value (.number (ceilDiv ((date.getDate : Int) + ret) 7
      - (if 7 - ret ≥ cldr.minDays then 0 else 1))) false)
  | "d" => .ok (.value (.number date.getDate) true)
  | "D" => .ok (.value (.number (h.dateDayOfYear date + 1)) true)
  | "F" => .ok (.value (.number ((date.getDate / 7 : Nat) + 1)) false)
  | "g+" => .error .notImplemented
  | "e" =>
    if length ≤ 2 then .ok (.value (.number (h.dateDayOfWeek date cldr + 1)) true)
    else .ok (.value (caseE h date cldr chr length) false)
  | "c" =>
    if length ≤ 2 then .ok (.value (.number (h.dateDayOfWeek date cldr + 1)) true)
    else .ok (.value (caseE h date cldr chr length) false)
  | "E" => .ok (.value (caseE h date cldr chr length) false)
  | "a" =>
    .ok (.value (cldr.main [.string "dates/calendars/gregorian/dayPeriods/format/wide",
      .string (if date.getHours < 12 then "am" else "pm")]) false)
  | "h" => .ok (.value ((Value.number ((date.getHours % 12 : Nat))).orElse (.number 12)) true)
  | "H" => .ok (.value (.number date.getHours) true)
  | "K" => .ok (.value (.number ((date.getHours % 12 : Nat))) true)
  | "k" => .ok (.value ((Value.number date.getHours).orElse (.number 24)) true)
  | "m" => .ok (.value (.number date.getMinutes) true)
  | "s" => .ok (.value (.number date.getSeconds) true)
  | "S" => .ok (.value (.number (roundScaled date.getMilliseconds ((length : Int) - 3))) true)
  | "A" =>
    .ok (.value (.number (roundScaled (h.dateMillisecondsInDay date) ((length : Int) - 3))) true)
  | "z" => .ok (.value .undefined false)
  | "O" => caseO h date cldr length
  | "v" => .ok (.value .undefined false)
  | "V" => caseX h date length
  | "X" => caseX h date length
  | "x" => caseLowerX h date length
  | _ => .ok .literal

/-- The callback of `pattern.replace` as a function of the pattern element
`current`, for a given state `date` of the `Date` object: the text that
replaces the element. -/
def formatElement (h : Helpers) (date : Date) (cldr : Cldr) (current : String) :
    Except JSError String :=
  let chr0 := charAt0 current
  let length0 := current.length
  let chr1 := if chr0 = "j" then cldr.preferred else chr0
  let chr := if chr1 = "Z" then (if length0 < 4 then "x" else if length0 < 5 then "O" else "X")
    else chr1
  let length := if chr1 = "Z" then (if length0 < 4 then 4 else if length0 < 5 then 4 else 5)
    else length0
  match switchChr h date cldr chr length with
  | .error e => .error e
  | .ok .literal => .ok current
  | .ok (.value ret pad) =>
    .ok (if pad then stringPad ret.toJSString length else ret.toJSString)

/-- The method `replace` with a callback that depends on the matched text only:
the matches are replaced from left to right, and an exception thrown by the
callback ends the call. -/
def replaceElements (f : String → Except JSError String) : List String → Except JSError String
  | [] => .ok ""
  | t :: ts =>
    match f t with
    | .error e => .error e
    | .ok s =>
      match replaceElements f ts with
      | .error e => .error e
      | .ok r => .ok (s ++ r)

/-- The `switch ( chr )` together with the state in which it leaves the object
`date`, which all calls of the callback share. Case "Y" is the only case with a
statement that changes a `Date` object, and the object it changes is `ret`, the
copy made by `new Date( date.getTime() )`; every other case only reads `date`. -/
def switchChrState (h : Helpers) (date : Date) (cldr : Cldr) (chr : String) (length : Nat) :
    Except JSError (Outcome × Date) :=
  match chr with
  | "Y" =>
    let ret : Date := date
    let ret : Date := ret.setDate ((ret.getDate : Int) + 7
      - (h.dateDayOfWeek date cldr - h.dateFirstDayOfWeek cldr) - cldr.minDays)
    .ok (.value (yearText ret.getFullYear length) true, date)
  | _ =>
    match switchChr h date cldr chr length with
    | .error e => .error e
    | .ok o => .ok (o, date)

/-- The callback of `pattern.replace` with the state of the object `date` made
explicit: the text that replaces the pattern element `current`, and the state
in which the call leaves the object. -/
def formatElementState (h : Helpers) (cldr : Cldr) (date : Date) (current : String) :
    Except JSError (String × Date) :=
  let chr0 := charAt0 current
  let length0 := current.length
  let chr1 := if chr0 = "j" then cldr.preferred else chr0
  let chr := if chr1 = "Z" then (if length0 < 4 then "x" else if length0 < 5 then "O" else "X")
    else chr1
  let length := if chr1 = "Z" then (if length0 < 4 then 4 else if length0 < 5 then 4 else 5)
    else length0
  match switchChrState h date cldr chr length with
  | .error e => .error e
  | .ok (.literal, d) => .ok (current, d)
  | .ok (.value ret pad, d) =>
    .ok (if pad then stringPad ret.toJSString length else ret.toJSString, d)

/-- The method `replace` with a callback that reads and may change a shared
object: the matches are replaced from left to right, each call of the callback
starts in the state the call before it left, and an exception ends the call. -/
def replaceElementsState (f : Date → String → Except JSError (String × Date)) :
    Date → List String → Except JSError (String × Date)
  | d, [] => .ok ("", d)
  | d, t :: ts =>
    match f d t with
    | .error e => .error e
    | .ok (s, d1) =>
      match replaceElementsState f d1 ts with
      | .error e => .error e
      | .ok (r, d2) => .ok (s ++ r, d2)

/-- The function `format( date, pattern, cldr )` of `src/date/format.js`. -/
def format (h : Helpers) (date : Date) (pattern : String) (cldr : Cldr) :
    Except JSError String :=
  match replaceElementsState (formatElementState h cldr) date (tokenize pattern.data) with
  | .error e => .error e
  | .ok (s, _) => .ok s

/-! ## Notions used in the statements -/

/-- The strings with a case of their own in the `switch`. -/
def caseLabels : List String :=
  ["G", "y", "Y", "u", "U", "Q", "q", "M", "L", "w", "W", "d", "D", "F", "g+", "e", "c", "E",
    "a", "h", "H", "K", "k", "m", "s", "S", "A", "z", "O", "v", "V", "X", "x"]

/-- The join of two patterns splits a field run: the first ends with the field
letter the second starts with. -/
def splitsRun (p q : List Char) : Prop :=
  ∃ c ∈ fieldLetters, p.getLast? = some c ∧ q.head? = some c

instance splitsRunDecidable (p q : List Char) : Decidable (splitsRun p q) := by
  unfold splitsRun
  infer_instance

/-- The join of two patterns falls inside quoted text: the first holds an odd
number of quotes, so its last quote is open, and the second holds a quote that
closes it. -/
def splitsQuote (p q : List Char) : Prop :=
  quoteChar ∈ q ∧ p.count quoteChar % 2 = 1

instance splitsQuoteDecidable (p q : List Char) : Decidable (splitsQuote p q) := by
  unfold splitsQuote
  infer_instance

/-- The sequencing of two replacement results: the first failure wins, two
successes are concatenated. -/
def andThen (a b : Except JSError String) : Except JSError String :=
  match a with
  | .error e => .error e
  | .ok s =>
    match b with
    | .error e => .error e
    | .ok r => .ok (s ++ r)

/-- The two decimal digits of `n % 100`. -/
def twoDigits (n : Nat) : List Char :=
  [Nat.digitChar (n / 10 % 10), Nat.digitChar (n % 10)]

/-- The template the field `x` of run length `n` passes to the offset
formatter. -/
def offsetTemplate (n : Nat) : String :=
  if n = 1 then "+HH;-HH" else if n % 2 ≠ 0 then "+HH:mm;-HH:mm" else "+HHmm;-HHmm"

/-- The ordinal of a day of the month among the days of the same weekday: the
number of days `e` with `1 ≤ e ≤ d` that are congruent to `d` modulo 7. -/
def dayOfWeekInMonth (d : Nat) : Nat :=
  ((List.range d).filter fun i => decide ((i + 1) % 7 = d % 7)).length

/-- The 0-based day of the year of a date, by the calendar arithmetic of the
`Date` object. -/
def Date.dayOfYear (date : Date) : Int :=
  makeDay date.getFullYear date.getMonth date.getDate - dayFromYear date.getFullYear

/-- The value `Math.round( ms * Math.pow( 10, n - 3 ) )` for `n` in 1..3. -/
def roundedFraction (ms n : Nat) : Nat :=
  (2 * ms + 10 ^ (3 - n)) / (2 * 10 ^ (3 - n))

/-! ## Sample data for closed statements -/

/-- Some entries of the English locale data. -/
def englishEntries : List (List Value × Value) :=
  [ ([.string "dates/calendars/gregorian/months", .string "format", .string "abbreviated",
      .number 7], .string "Jul"),
    ([.string "dates/calendars/gregorian/months", .string "format", .string "wide",
      .number 7], .string "July"),
    ([.string "dates/calendars/gregorian/months", .string "format", .string "narrow",
      .number 7], .string "J"),
    ([.string "dates/calendars/gregorian/months", .string "stand-alone", .string "abbreviated",
      .number 7], .string "Jul"),
    ([.string "dates/calendars/gregorian/months", .string "stand-alone", .string "wide",
      .number 7], .string "July"),
    ([.string "dates/calendars/gregorian/months", .string "stand-alone", .string "narrow",
      .number 7], .string "J"),
    ([.string "dates/calendars/gregorian/quarters", .string "format", .string "abbreviated",
      .number 3], .string "Q3"),
    ([.string "dates/calendars/gregorian/quarters", .string "format", .string "wide",
      .number 3], .string "3rd quarter"),
    ([.string "dates/calendars/gregorian/days", .string "format", .string "abbreviated",
      .string "wed"], .string "Wed"),
    ([.string "dates/calendars/gregorian/days", .string "format", .string "wide",
      .string "wed"], .string "Wednesday"),
    ([.string "dates/calendars/gregorian/days", .string "format", .string "short",
      .string "wed"], .string "We"),
    ([.string "dates/calendars/gregorian/days", .string "stand-alone", .string "abbreviated",
      .string "wed"], .string "Wed"),
    ([.string "dates/calendars/gregorian/eras", .string "eraAbbr", .number 1], .string "AD"),
    ([.string "dates/calendars/gregorian/dayPeriods/format/wide", .string "am"], .string "AM"),
    ([.string "dates/calendars/gregorian/dayPeriods/format/wide", .string "pm"], .string "PM"),
    ([.string "dates/timeZoneNames/gmtZeroFormat"], .string "GMT"),
    ([.string "dates/timeZoneNames/gmtFormat"], .string "GMT\x7b0\x7d"),
    ([.string "dates/timeZoneNames/hourFormat"], .string "+HH:mm;-HH:mm") ]

/-- An accessor over `englishEntries`; the week starts on Sunday and its first
week needs one day. -/
def englishCldr : Cldr :=
  { main := fun path =>
      match englishEntries.find? (fun e => decide (e.1 = path)) with
      | some e => e.2
      | none => .undefined
    preferred := "h"
    minDays := 1 }

/-- The instant 2023-07-12 13:05:09.250, a Wednesday, 330 minutes east of UTC. -/
def sampleDate : Date :=
  { getFullYear := 2023, getMonth := 6, getDate := 12, getHours := 13, getMinutes := 5,
    getSeconds := 9, getMilliseconds := 250, getTimezoneOffset := -330 }

/-- Locale data with a `gmtFormat` entry and no `hourFormat` entry. -/
def noHourFormatCldr : Cldr :=
  { main := fun path =>
      if path = [.string "dates/timeZoneNames/gmtFormat"] then .string "GMT\x7b0\x7d"
      else .undefined
    preferred := "h"
    minDays := 1 }

/-- A locale-data accessor without any entry. -/
def emptyCldr : Cldr :=
  { main := fun _ => .undefined, preferred := "h", minDays := 1 }

/-- Locale data whose short name of Wednesday is the empty string. -/
def emptyShortCldr : Cldr :=
  { main := fun path =>
      if path = [.string "dates/calendars/gregorian/days", .string "format", .string "short",
          .string "wed"] then .string ""
      else if path = [.string "dates/calendars/gregorian/days", .string "format",
          .string "abbreviated", .string "wed"] then .string "Wed"
      else .undefined
    preferred := "h"
    minDays := 1 }

/-- Helpers in the sense of section 6 of the specification for a locale whose
week starts on Sunday. The offset formatter writes the sign, the hours and the
minutes of the offset whatever the layout of a string template, and throws for a
template that is not a string. -/
def sampleHelpers : Helpers :=
  { dateDayOfWeek := fun d _ => d.getDay
    dateDayOfYear := fun d =>
      makeDay d.getFullYear d.getMonth d.getDate - dayFromYear d.getFullYear
    dateFirstDayOfWeek := fun _ => 0
    dateMillisecondsInDay := fun d =>
      ((d.getHours * 60 + d.getMinutes) * 60 + d.getSeconds) * 1000 + d.getMilliseconds
    dateStartOf := fun d unit =>
      if unit = "year" then
        { d with getMonth := 0, getDate := 1, getHours := 0, getMinutes := 0, getSeconds := 0,
                 getMilliseconds := 0 }
      else if unit = "month" then
        { d with getDate := 1, getHours := 0, getMinutes := 0, getSeconds := 0,
                 getMilliseconds := 0 }
      else d
    dateTimezoneHourFormat := fun d t =>
      match t with
      | .string _ =>
        .ok ((if d.getTimezoneOffset > 0 then "-" else "+")
          ++ toString (d.getTimezoneOffset.natAbs / 60) ++ ":"
          ++ toString (d.getTimezoneOffset.natAbs % 60))
      | _ => .error .typeError
    dateWeekDays := ["sun", "mon", "tue", "wed", "thu", "fri", "sat"] }

/-! ## Calendar lemmas -/

theorem dayFromYear_succ (y : Int) : dayFromYear (y + 1) = dayFromYear y + daysInYear y := by
  unfold dayFromYear daysInYear
  split_ifs <;> omega

theorem daysInYear_pos (y : Int) : 365 ≤ daysInYear y ∧ daysInYear y ≤ 366 := by
  unfold daysInYear
  split_ifs <;> omega

theorem dayFromYear_bounds (y : Int) :
    146097 * (y - 1970) - 608 ≤ 400 * dayFromYear y ∧
      400 * dayFromYear y ≤ 146097 * (y - 1970) + 608 := by
  unfold dayFromYear
  omega

theorem yearFromDay_eq (y d : Int) (h1 : dayFromYear y ≤ d) (h2 : d < dayFromYear (y + 1)) :
    yearFromDay d = y := by
  have b1 := dayFromYear_bounds y
  have b2 := dayFromYear_bounds (y + 1)
  have hk : 1970 + d * 400 / 146097 = y - 1 ∨ 1970 + d * 400 / 146097 = y ∨
      1970 + d * 400 / 146097 = y + 1 := by omega
  have s1 := dayFromYear_succ (y + 1)
  have p1 := daysInYear_pos (y + 1)
  unfold yearFromDay
  simp only
  rcases hk with hk | hk | hk <;> rw [hk]
  · have e : y - 1 + 1 = y := by ring
    rw [e, if_pos h1]
  · rw [if_neg (by omega), if_pos h1]
  · rw [if_neg (by omega), if_neg (by omega)]
    ring

theorem setDate_getFullYear (date : Date) (dt : Int)
    (lo : dayFromYear date.getFullYear ≤ makeDay date.getFullYear date.getMonth dt)
    (hi : makeDay date.getFullYear date.getMonth dt < dayFromYear (date.getFullYear + 1)) :
    (date.setDate dt).getFullYear = date.getFullYear :=
  yearFromDay_eq _ _ lo hi

/-! ## The tokenizer and the replacement loop -/

theorem fieldLetter_ne_quote (c : Char) (hc : c ∈ fieldLetters) : c ≠ quoteChar := by
  intro e
  subst e
  revert hc
  decide

theorem prependChar_ne_nil (c : Char) (l : List String) : prependChar c l ≠ [] := by
  cases l <;> simp [prependChar]

theorem prependChar_head (c : Char) (l : List String) :
    ∃ t ts, prependChar c l = t :: ts ∧ t.data.head? = some c := by
  cases l with
  | nil => exact ⟨_, _, rfl, rfl⟩
  | cons t ts => exact ⟨_, _, rfl, rfl⟩

theorem prependChar_append (c : Char) (l m : List String) (hl : l ≠ []) :
    prependChar c (l ++ m) = prependChar c l ++ m := by
  cases l with
  | nil => exact absurd rfl hl
  | cons t ts => rfl

theorem mem_prependChar (c : Char) (l : List String) (t : String) (ht : t ∈ prependChar c l) :
    t.data.head? = some c ∨ t ∈ l := by
  cases l with
  | nil =>
    rw [prependChar, List.mem_singleton] at ht
    rw [ht]
    exact Or.inl rfl
  | cons u us =>
    rw [prependChar] at ht
    rcases List.mem_cons.mp ht with e | e
    · rw [e]
      exact Or.inl rfl
    · exact Or.inr (List.mem_cons_of_mem _ e)

theorem prependChar_data (c : Char) (l : List String) :
    (prependChar c l).foldr (fun t acc => t.data ++ acc) []
      = c :: l.foldr (fun t acc => t.data ++ acc) [] := by
  cases l <;> rfl

theorem tokenizeFrom_quote_in (c : Char) (cs : List Char) (hc : c = quoteChar) :
    tokenizeFrom true (c :: cs) = String.mk [c] :: tokenizeFrom false cs := by
  rw [tokenizeFrom, if_pos hc]

theorem tokenizeFrom_char_in (c : Char) (cs : List Char) (hc : c ≠ quoteChar) :
    tokenizeFrom true (c :: cs) = prependChar c (tokenizeFrom true cs) := by
  rw [tokenizeFrom, if_neg hc]

theorem tokenizeFrom_quote_open (c : Char) (cs : List Char) (hc : c = quoteChar)
    (hm : quoteChar ∈ cs) :
    tokenizeFrom false (c :: cs) = prependChar c (tokenizeFrom true cs) := by
  rw [tokenizeFrom, if_pos hc, if_pos hm]

theorem tokenizeFrom_quote_alone (c : Char) (cs : List Char) (hc : c = quoteChar)
    (hm : quoteChar ∉ cs) :
    tokenizeFrom false (c :: cs) = String.mk [c] :: tokenizeFrom false cs := by
  rw [tokenizeFrom, if_pos hc, if_neg hm]

theorem tokenizeFrom_char (c : Char) (cs : List Char) (hc : c ≠ quoteChar) :
    tokenizeFrom false (c :: cs) =
      match tokenizeFrom false cs with
      | [] => [String.mk [c]]
      | t :: ts =>
        if c ∈ fieldLetters ∧ t.data.head? = some c then String.mk (c :: t.data) :: ts
        else String.mk [c] :: t :: ts := by
  rw [tokenizeFrom, if_neg hc]

theorem tokenizeFrom_cons_head (b : Bool) (c : Char) (cs : List Char) :
    ∃ t ts, tokenizeFrom b (c :: cs) = t :: ts ∧ t.data.head? = some c := by
  by_cases hc : c = quoteChar
  · cases b
    · by_cases hm : quoteChar ∈ cs
      · rw [tokenizeFrom_quote_open c cs hc hm]
        exact prependChar_head _ _
      · rw [tokenizeFrom_quote_alone c cs hc hm]
        exact ⟨_, _, rfl, rfl⟩
    · rw [tokenizeFrom_quote_in c cs hc]
      exact ⟨_, _, rfl, rfl⟩
  · cases b
    · rw [tokenizeFrom_char c cs hc]
      cases tokenizeFrom false cs with
      | nil => exact ⟨_, _, rfl, rfl⟩
      | cons t ts =>
        simp only
        split_ifs
        · exact ⟨_, _, rfl, rfl⟩
        · exact ⟨_, _, rfl, rfl⟩
    · rw [tokenizeFrom_char_in c cs hc]
      exact prependChar_head _ _

theorem tokenize_cons_head (c : Char) (cs : List Char) :
    ∃ t ts, tokenize (c :: cs) = t :: ts ∧ t.data.head? = some c :=
  tokenizeFrom_cons_head false c cs

theorem tokenizeFrom_data (b : Bool) (cs : List Char) :
    (tokenizeFrom b cs).foldr (fun t acc => t.data ++ acc) [] = cs := by
  induction cs generalizing b with
  | nil => cases b <;> rfl
  | cons c cs ih =>
    by_cases hc : c = quoteChar
    · cases b
      · by_cases hm : quoteChar ∈ cs
        · rw [tokenizeFrom_quote_open c cs hc hm, prependChar_data, ih]
        · rw [tokenizeFrom_quote_alone c cs hc hm, List.foldr_cons, ih]
          rfl
      · rw [tokenizeFrom_quote_in c cs hc, List.foldr_cons, ih]
        rfl
    · cases b
      · rw [tokenizeFrom_char c cs hc]
        have ih2 := ih false
        cases hts : tokenizeFrom false cs with
        | nil =>
          rw [hts] at ih2
          simp only [List.foldr_nil] at ih2
          rw [← ih2]
          rfl
        | cons t ts =>
          rw [hts] at ih2
          simp only
          split_ifs
          · rw [← ih2]
            rfl
          · rw [← ih2]
            rfl
      · rw [tokenizeFrom_char_in c cs hc, prependChar_data, ih]

theorem tokenizeFrom_head_mem (b : Bool) (cs : List Char) :
    ∀ t ∈ tokenizeFrom b cs, ∃ c ∈ cs, t.data.head? = some c := by
  induction cs generalizing b with
  | nil =>
    intro t ht
    cases b <;> simp [tokenizeFrom] at ht
  | cons c cs ih =>
    intro t ht
    have lift : (∃ d ∈ cs, t.data.head? = some d) → ∃ d ∈ c :: cs, t.data.head? = some d :=
      fun ⟨d, hd, e⟩ => ⟨d, List.mem_cons_of_mem _ hd, e⟩
    have here : t.data.head? = some c → ∃ d ∈ c :: cs, t.data.head? = some d :=
      fun e => ⟨c, List.mem_cons_self _ _, e⟩
    by_cases hc : c = quoteChar
    · cases b
      · by_cases hm : quoteChar ∈ cs
        · rw [tokenizeFrom_quote_open c cs hc hm] at ht
          rcases mem_prependChar _ _ _ ht with e | e
          · exact here e
          · exact lift (ih true t e)
        · rw [tokenizeFrom_quote_alone c cs hc hm] at ht
          rcases List.mem_cons.mp ht with e | e
          · exact here (by rw [e]; rfl)
          · exact lift (ih false t e)
      · rw [tokenizeFrom_quote_in c cs hc] at ht
        rcases List.mem_cons.mp ht with e | e
        · exact here (by rw [e]; rfl)
        · exact lift (ih false t e)
    · cases b
      · rw [tokenizeFrom_char c cs hc] at ht
        cases hts : tokenizeFrom false cs with
        | nil =>
          rw [hts] at ht
          rw [List.mem_singleton] at ht
          exact here (by rw [ht]; rfl)
        | cons u us =>
          rw [hts] at ht
          simp only at ht
          have ihf := ih false
          rw [hts] at ihf
          split_ifs at ht
          · rcases List.mem_cons.mp ht with e | e
            · exact here (by rw [e]; rfl)
            · exact lift (ihf t (List.mem_cons_of_mem _ e))
          · rcases List.mem_cons.mp ht with e | e
            · exact here (by rw [e]; rfl)
            · exact lift (ihf t e)
      · rw [tokenizeFrom_char_in c cs hc] at ht
        rcases mem_prependChar _ _ _ ht with e | e
        · exact here e
        · exact lift (ih true t e)

theorem tokenize_replicate (c : Char) (hc : c ∈ fieldLetters) (n : Nat) :
    tokenize (List.replicate (n + 1) c) = [String.mk (List.replicate (n + 1) c)] := by
  have hq := fieldLetter_ne_quote c hc
  unfold tokenize
  induction n with
  | zero =>
    show tokenizeFrom false (c :: []) = _
    rw [tokenizeFrom_char c [] hq]
    rfl
  | succ n ih =>
    rw [List.replicate_succ, tokenizeFrom_char c _ hq, ih]
    simp [hc, List.replicate_succ]

theorem not_splitsRun_tail (c : Char) (p q : List Char) (hj : ¬ splitsRun (c :: p) q) :
    ¬ splitsRun p q := by
  cases p with
  | nil =>
    rintro ⟨d, -, h2, -⟩
    cases h2
  | cons b p =>
    rintro ⟨d, h1, h2, h3⟩
    exact hj ⟨d, h1, by simpa [List.getLast?_cons_cons] using h2, h3⟩

theorem count_quote_pos (p : List Char) (hp : p.count quoteChar % 2 = 1) : quoteChar ∈ p := by
  by_contra hn
  rw [List.count_eq_zero_of_not_mem hn] at hp
  cases hp

theorem tokenizeFrom_append (p q : List Char) :
    ¬ splitsRun p q → ∀ b : Bool, (b = true → quoteChar ∈ p) →
      (quoteChar ∈ q → (p.count quoteChar + (if b then 1 else 0)) % 2 = 0) →
      tokenizeFrom b (p ++ q) = tokenizeFrom b p ++ tokenizeFrom false q := by
  induction p with
  | nil =>
    intro _ b h1 _
    cases b
    · rfl
    · exact absurd (h1 rfl) (List.not_mem_nil _)
  | cons c p ih =>
    intro hj b h1 h2
    have hjp := not_splitsRun_tail c p q hj
    by_cases hc : c = quoteChar
    · have hcount : (c :: p).count quoteChar = p.count quoteChar + 1 := by
        rw [hc, List.count_cons_self]
      cases b
      · by_cases hp : quoteChar ∈ p
        · have hm : quoteChar ∈ p ++ q := List.mem_append_left _ hp
          have hne : tokenizeFrom true p ≠ [] := by
            cases p with
            | nil => exact absurd hp (List.not_mem_nil _)
            | cons d p =>
              obtain ⟨t, ts, e, -⟩ := tokenizeFrom_cons_head true d p
              rw [e]
              exact List.cons_ne_nil _ _
          show tokenizeFrom false (c :: (p ++ q)) = tokenizeFrom false (c :: p) ++ _
          rw [tokenizeFrom_quote_open c _ hc hm, tokenizeFrom_quote_open c _ hc hp,
            ih hjp true (fun _ => hp) (fun hq => by
              have := h2 hq
              rw [hcount] at this
              simpa using this),
            prependChar_append _ _ _ hne]
        · have hq : quoteChar ∉ q := by
            intro hq
            have := h2 hq
            rw [hcount, List.count_eq_zero_of_not_mem hp] at this
            simp at this
          have hm : quoteChar ∉ p ++ q := by
            intro hm
            rcases List.mem_append.mp hm with e | e
            · exact hp e
            · exact hq e
          show tokenizeFrom false (c :: (p ++ q)) = tokenizeFrom false (c :: p) ++ _
          rw [tokenizeFrom_quote_alone c _ hc hm, tokenizeFrom_quote_alone c _ hc hp,
            ih hjp false (fun k => by cases k) (fun k => absurd k hq)]
          rfl
      · show tokenizeFrom true (c :: (p ++ q)) = tokenizeFrom true (c :: p) ++ _
        rw [tokenizeFrom_quote_in c _ hc, tokenizeFrom_quote_in c _ hc,
          ih hjp false (fun k => by cases k) (fun hq => by
            have := h2 hq
            rw [hcount] at this
            simp only [if_true] at this
            simp only [Bool.false_eq_true, if_false, add_zero]
            omega)]
        rfl
    · have hcount : (c :: p).count quoteChar = p.count quoteChar := by
        rw [List.count_cons_of_ne (fun e => hc e.symm)]
      cases b
      · have ihf := ih hjp false (fun k => by cases k) (fun hq => by
          have := h2 hq
          rw [hcount] at this
          exact this)
        show tokenizeFrom false (c :: (p ++ q)) = tokenizeFrom false (c :: p) ++ _
        rw [tokenizeFrom_char c _ hc, tokenizeFrom_char c _ hc, ihf]
        cases p with
        | nil =>
          cases q with
          | nil => rfl
          | cons d q =>
            obtain ⟨t, ts, e, ht⟩ := tokenizeFrom_cons_head false d q
            have hab : ¬ (c ∈ fieldLetters ∧ t.data.head? = some c) := by
              rintro ⟨k1, k2⟩
              rw [ht] at k2
              cases k2
              exact hj ⟨c, k1, rfl, rfl⟩
            have e0 : tokenizeFrom false ([] : List Char) = [] := rfl
            rw [e0, List.nil_append, e]
            simp only [if_neg hab]
            rfl
        | cons d p =>
          obtain ⟨t, ts, e, -⟩ := tokenizeFrom_cons_head false d p
          rw [e]
          simp only [List.cons_append]
          split_ifs <;> rfl
      · have hp : quoteChar ∈ p := by
          rcases List.mem_cons.mp (h1 rfl) with e | e
          · exact absurd e.symm hc
          · exact e
        have hne : tokenizeFrom true p ≠ [] := by
          cases p with
          | nil => exact absurd hp (List.not_mem_nil _)
          | cons d p =>
            obtain ⟨t, ts, e, -⟩ := tokenizeFrom_cons_head true d p
            rw [e]
            exact List.cons_ne_nil _ _
        show tokenizeFrom true (c :: (p ++ q)) = tokenizeFrom true (c :: p) ++ _
        rw [tokenizeFrom_char_in c _ hc, tokenizeFrom_char_in c _ hc,
          ih hjp true (fun _ => hp) (fun hq => by
            have := h2 hq
            rw [hcount] at this
            exact this),
          prependChar_append _ _ _ hne]

theorem tokenize_append (p q : List Char) (hj : ¬ splitsRun p q) (hq : ¬ splitsQuote p q) :
    tokenize (p ++ q) = tokenize p ++ tokenize q := by
  apply tokenizeFrom_append p q hj false (fun k => by cases k)
  intro hm
  have : ¬ (p.count quoteChar % 2 = 1) := fun k => hq ⟨hm, k⟩
  simp only [Bool.false_eq_true, if_false, add_zero]
  omega

theorem replaceElements_cons (f : String → Except JSError String) (t : String)
    (ts : List String) :
    replaceElements f (t :: ts) = andThen (f t) (replaceElements f ts) := by
  rw [replaceElements]
  rfl

theorem andThen_assoc (a b c : Except JSError String) :
    andThen (andThen a b) c = andThen a (andThen b c) := by
  cases a with
  | error e => rfl
  | ok s =>
    cases b with
    | error e => rfl
    | ok r =>
      cases c with
      | error e => rfl
      | ok u => simp [andThen, String.append_assoc]

theorem andThen_ok_empty (a : Except JSError String) : andThen a (.ok "") = a := by
  cases a with
  | error e => rfl
  | ok s => simp [andThen]

theorem ok_empty_andThen (a : Except JSError String) : andThen (.ok "") a = a := by
  cases a with
  | error e => rfl
  | ok s => simp [andThen]

theorem replaceElements_append (f : String → Except JSError String) (a b : List String) :
    replaceElements f (a ++ b) = andThen (replaceElements f a) (replaceElements f b) := by
  induction a with
  | nil => rw [List.nil_append, replaceElements, ok_empty_andThen]
  | cons t ts ih =>
    rw [List.cons_append, replaceElements_cons, ih, replaceElements_cons, andThen_assoc]

/-! ### The callback leaves the object `date` as it found it -/

theorem switchChrState_eq (h : Helpers) (date : Date) (cldr : Cldr) (chr : String)
    (length : Nat) :
    switchChrState h date cldr chr length
      = match switchChr h date cldr chr length with
        | .error e => .error e
        | .ok o => .ok (o, date) := by
  unfold switchChrState
  split
  · rfl
  · rfl

theorem formatElementState_eq (h : Helpers) (cldr : Cldr) (date : Date) (current : String) :
    formatElementState h cldr date current
      = match formatElement h date cldr current with
        | .error e => .error e
        | .ok s => .ok (s, date) := by
  unfold formatElementState formatElement
  simp only [switchChrState_eq]
  generalize switchChr h date cldr _ _ = r
  rcases r with e | (_ | ⟨ret, pad⟩) <;> rfl

theorem replaceElementsState_eq (h : Helpers) (cldr : Cldr) (date : Date) (ts : List String) :
    replaceElementsState (formatElementState h cldr) date ts
      = match replaceElements (formatElement h date cldr) ts with
        | .error e => .error e
        | .ok s => .ok (s, date) := by
  induction ts with
  | nil => rfl
  | cons t ts ih =>
    rw [replaceElementsState, formatElementState_eq, replaceElements]
    cases formatElement h date cldr t with
    | error e => rfl
    | ok s =>
      simp only [ih]
      cases replaceElements (formatElement h date cldr) ts with
      | error e => rfl
      | ok r => rfl

/-- The replacement loop of `format` for a date object that no call of the
callback changes: every element is resolved against the same instant. -/
theorem format_eq (h : Helpers) (date : Date) (pattern : String) (cldr : Cldr) :
    format h date pattern cldr
      = replaceElements (formatElement h date cldr) (tokenize pattern.data) := by
  unfold format
  rw [replaceElementsState_eq]
  cases replaceElements (formatElement h date cldr) (tokenize pattern.data) with
  | error e => rfl
  | ok s => rfl

theorem format_append (h : Helpers) (date : Date) (cldr : Cldr) (p q : String)
    (hj : ¬ splitsRun p.data q.data) (hq : ¬ splitsQuote p.data q.data) :
    format h date (p ++ q) cldr = andThen (format h date p cldr) (format h date q cldr) := by
  rw [format_eq, format_eq, format_eq, String.data_append, tokenize_append _ _ hj hq,
    replaceElements_append]

theorem format_run (h : Helpers) (date : Date) (cldr : Cldr) (c : Char) (hc : c ∈ fieldLetters)
    (n : Nat) :
    format h date (String.mk (List.replicate (n + 1) c)) cldr
      = formatElement h date cldr (String.mk (List.replicate (n + 1) c)) := by
  rw [format_eq, tokenize_replicate c hc n, replaceElements_cons, replaceElements,
    andThen_ok_empty]

theorem formatElement_head (h : Helpers) (date : Date) (cldr : Cldr) (t : String) (c : Char)
    (ht : t.data.head? = some c) (hj : c ≠ 'j') (hz : c ≠ 'Z') :
    formatElement h date cldr t
      = match switchChr h date cldr (String.mk [c]) t.length with
        | .error e => .error e
        | .ok .literal => .ok t
        | .ok (.value ret pad) =>
          .ok (if pad then stringPad ret.toJSString t.length else ret.toJSString) := by
  have h0 : charAt0 t = String.mk [c] := by
    unfold charAt0
    cases hd : t.data with
    | nil => rw [hd] at ht; cases ht
    | cons a r =>
      rw [hd] at ht
      cases ht
      rfl
  have hj2 : String.mk [c] ≠ "j" := by
    intro e
    have e2 : [c] = ['j'] := congrArg String.data e
    simp only [List.cons.injEq, and_true] at e2
    exact hj e2
  have hz2 : String.mk [c] ≠ "Z" := by
    intro e
    have e2 : [c] = ['Z'] := congrArg String.data e
    simp only [List.cons.injEq, and_true] at e2
    exact hz e2
  unfold formatElement
  simp only [h0, if_neg hj2, if_neg hz2]

theorem formatElement_run (h : Helpers) (date : Date) (cldr : Cldr) (c : Char)
    (hj : c ≠ 'j') (hz : c ≠ 'Z') (n : Nat) :
    formatElement h date cldr (String.mk (List.replicate (n + 1) c))
      = match switchChr h date cldr (String.mk [c]) (n + 1) with
        | .error e => .error e
        | .ok .literal => .ok (String.mk (List.replicate (n + 1) c))
        | .ok (.value ret pad) =>
          .ok (if pad then stringPad ret.toJSString (n + 1) else ret.toJSString) := by
  have h0 : charAt0 (String.mk (List.replicate (n + 1) c)) = String.mk [c] := rfl
  have hj2 : String.mk [c] ≠ "j" := by
    intro e
    have e2 : [c] = ['j'] := congrArg String.data e
    simp only [List.cons.injEq, and_true] at e2
    exact hj e2
  have hz2 : String.mk [c] ≠ "Z" := by
    intro e
    have e2 : [c] = ['Z'] := congrArg String.data e
    simp only [List.cons.injEq, and_true] at e2
    exact hz e2
  unfold formatElement
  simp only [h0, if_neg hj2, if_neg hz2, String.length, List.length_replicate]

/-! ## Literal patterns -/

theorem switchChr_default (h : Helpers) (date : Date) (cldr : Cldr) (chr : String) (length : Nat)
    (hc : chr ∉ caseLabels) : switchChr h date cldr chr length = .ok .literal := by
  simp only [caseLabels, List.mem_cons, List.mem_singleton, not_or, List.not_mem_nil, not_false_eq_true, and_true] at hc
  unfold switchChr
  split <;> first | rfl | simp_all

theorem caseLabels_single :
    ∀ l ∈ caseLabels, ∀ c ∈ l.data, l.data.length = 1 → c ∈ fieldLetters := by
  decide

theorem single_not_caseLabel (c : Char) (hc : c ∉ fieldLetters) : String.mk [c] ∉ caseLabels :=
  fun hmem => hc (caseLabels_single _ hmem c (List.mem_singleton.mpr rfl) rfl)

theorem formatElement_literal (h : Helpers) (date : Date) (cldr : Cldr) (t : String) (c : Char)
    (ht : t.data.head? = some c) (hc : c ∉ fieldLetters) :
    formatElement h date cldr t = .ok t := by
  have hj : c ≠ 'j' := fun e => hc (e ▸ by decide)
  have hz : c ≠ 'Z' := fun e => hc (e ▸ by decide)
  rw [formatElement_head h date cldr t c ht hj hz,
    switchChr_default h date cldr _ _ (single_not_caseLabel c hc)]

theorem replaceElements_unchanged (f : String → Except JSError String) (ts : List String)
    (hf : ∀ t ∈ ts, f t = .ok t) :
    replaceElements f ts = .ok (String.mk (ts.foldr (fun t acc => t.data ++ acc) [])) := by
  induction ts with
  | nil => rfl
  | cons t ts ih =>
    rw [replaceElements, hf t (List.mem_cons_self _ _),
      ih (fun u hu => hf u (List.mem_cons_of_mem _ hu))]
    rfl

/-- C1: for every instant, locale data and pattern that contains none of the
field letters, `format` returns the pattern unchanged. -/
theorem format_literal_pattern (h : Helpers) (date : Date) (cldr : Cldr) (pattern : String)
    (hp : ∀ c ∈ pattern.data, c ∉ fieldLetters) :
    format h date pattern cldr = .ok pattern := by
  have hf : ∀ t ∈ tokenize pattern.data, formatElement h date cldr t = .ok t := by
    intro t ht
    obtain ⟨c, hc, e⟩ := tokenizeFrom_head_mem false pattern.data t ht
    exact formatElement_literal h date cldr t c e (hp c hc)
  rw [format_eq, replaceElements_unchanged _ _ hf]
  show Except.ok (String.mk ((tokenizeFrom false pattern.data).foldr
    (fun t acc => t.data ++ acc) [])) = _
  rw [tokenizeFrom_data]

theorem format_literal_pattern_witness :
    (∀ c ∈ ("12:30, 'on' 中 / @#".data), c ∉ fieldLetters) ∧
      format sampleHelpers sampleDate "12:30, 'on' 中 / @#" emptyCldr = .ok "12:30, 'on' 中 / @#" :=
  ⟨by decide, format_literal_pattern _ _ _ _ (by decide)⟩

/-! ## Unsupported fields -/

theorem andThen_error (a : Except JSError String) (e : JSError) :
    ∃ e2, andThen a (.error e) = .error e2 := by
  cases a with
  | error e1 => exact ⟨e1, rfl⟩
  | ok s => exact ⟨e, rfl⟩

theorem replaceElements_error_of_mem (f : String → Except JSError String) (ts : List String)
    (hf : ∃ t ∈ ts, ∃ e, f t = .error e) : ∃ e, replaceElements f ts = .error e := by
  induction ts with
  | nil =>
    obtain ⟨t, ht, -⟩ := hf
    exact absurd ht (List.not_mem_nil _)
  | cons u us ih =>
    rw [replaceElements_cons]
    cases hu : f u with
    | error e => exact ⟨e, rfl⟩
    | ok s =>
      obtain ⟨t, ht, e, he⟩ := hf
      rcases List.mem_cons.mp ht with k | k
      · rw [k, hu] at he
        cases he
      · obtain ⟨e2, he2⟩ := ih ⟨t, k, e, he⟩
        rw [he2]
        exact ⟨e2, rfl⟩

theorem formatElement_uU (h : Helpers) (date : Date) (cldr : Cldr) (t : String)
    (ht : t.data.head? = some 'u' ∨ t.data.head? = some 'U') :
    formatElement h date cldr t = .error .notImplemented := by
  rcases ht with ht | ht
  · rw [formatElement_head h date cldr t 'u' ht (by decide) (by decide)]
    rfl
  · rw [formatElement_head h date cldr t 'U' ht (by decide) (by decide)]
    rfl

theorem format_starts_uU (h : Helpers) (date : Date) (cldr : Cldr) (c : Char)
    (hc : c = 'u' ∨ c = 'U') (post : List Char) :
    format h date (String.mk (c :: post)) cldr = .error .notImplemented := by
  obtain ⟨t, ts, e, ht⟩ := tokenize_cons_head c post
  have hh : t.data.head? = some 'u' ∨ t.data.head? = some 'U' := by
    rcases hc with rfl | rfl
    · exact Or.inl ht
    · exact Or.inr ht
  rw [format_eq, e, replaceElements_cons, formatElement_uU h date cldr t hh]
  rfl

/-- C2, as stated, fails: with the field `O` before the field `u`, a non-zero
offset and no `gmtFormat` entry, the call ends with a `TypeError`, not with the
error "Not implemented". -/
theorem format_uU_counterexample :
    format sampleHelpers sampleDate "Ou" emptyCldr = .error .typeError ∧
      'u' ∈ "Ou".data ∧ (∃ t ∈ tokenize "Ou".data, t.data.head? = some 'u') :=
  ⟨rfl, by decide, by decide⟩

/-- C2 (amended): a pattern that contains a field run of the letter `u` or `U`
(an element of the pattern that starts with that letter) never yields a string.
When the run starts at the letter `c` of the pattern, the error is the one of
the text before `c` when that text fails, and "Not implemented" otherwise. -/
theorem format_uU_fails (h : Helpers) (date : Date) (cldr : Cldr) (pattern : String)
    (hp : ∃ t ∈ tokenize pattern.data, t.data.head? = some 'u' ∨ t.data.head? = some 'U') :
    (∃ e, format h date pattern cldr = .error e) ∧
      ∀ (pre post : List Char) (c : Char), pattern.data = pre ++ c :: post →
        (c = 'u' ∨ c = 'U') → ¬ splitsRun pre (c :: post) → ¬ splitsQuote pre (c :: post) →
        format h date pattern cldr
          = andThen (format h date (String.mk pre) cldr) (.error .notImplemented) := by
  constructor
  · rw [format_eq]
    obtain ⟨t, ht, hh⟩ := hp
    exact replaceElements_error_of_mem _ _ ⟨t, ht, _, formatElement_uU h date cldr t hh⟩
  · intro pre post c e hc hj hq
    have e2 : pattern = String.mk pre ++ String.mk (c :: post) := by
      cases pattern
      simp only at e
      rw [e]
      rfl
    rw [e2, format_append h date cldr _ _ hj hq, format_starts_uU h date cldr c hc post]

theorem format_uU_fails_witness :
    format sampleHelpers sampleDate "'at' yyyy-uu!" emptyCldr = .error .notImplemented := by
  have hp : ∃ t ∈ tokenize "'at' yyyy-uu!".data,
      t.data.head? = some 'u' ∨ t.data.head? = some 'U' := by decide
  have e := (format_uU_fails sampleHelpers sampleDate emptyCldr "'at' yyyy-uu!" hp).2
    "'at' yyyy-".data "u!".data 'u' rfl (Or.inl rfl) (by decide) (by decide)
  rw [e]
  rfl

/-- C3: the code misses the Julian-day case. A run of the letter `g` never
matches the label `"g+"`, so it reaches `default` and is returned as text. -/
theorem format_g_run_is_text (h : Helpers) (date : Date) (cldr : Cldr) (n : Nat) :
    format h date (String.mk (List.replicate (n + 1) 'g')) cldr
      = .ok (String.mk (List.replicate (n + 1) 'g')) := by
  rw [format_run h date cldr 'g' (by decide) n,
    formatElement_run h date cldr 'g' (by decide) (by decide) n]
  rfl

/-- C4: the code writes the text "undefined" for a run of `z` or of `v`: both
cases leave the variable `ret` unset, and `replace` converts the value returned
by the callback to a string. -/
theorem format_zone_name_run (h : Helpers) (date : Date) (cldr : Cldr) (n : Nat) :
    format h date (String.mk (List.replicate (n + 1) 'z')) cldr = .ok "undefined" ∧
      format h date (String.mk (List.replicate (n + 1) 'v')) cldr = .ok "undefined" := by
  constructor
  · rw [format_run h date cldr 'z' (by decide) n,
      formatElement_run h date cldr 'z' (by decide) (by decide) n]
    rfl
  · rw [format_run h date cldr 'v' (by decide) n,
      formatElement_run h date cldr 'v' (by decide) (by decide) n]
    rfl

/-! ## Locale data without the required entry -/

theorem format_run_value (h : Helpers) (date : Date) (cldr : Cldr) (c : Char)
    (hc : c ∈ fieldLetters) (hj : c ≠ 'j') (hz : c ≠ 'Z') (n : Nat) (ret : Value) (pad : Bool)
    (hs : switchChr h date cldr (String.mk [c]) (n + 1) = .ok (.value ret pad)) :
    format h date (String.mk (List.replicate (n + 1) c)) cldr
      = .ok (if pad then stringPad ret.toJSString (n + 1) else ret.toJSString) := by
  rw [format_run h date cldr c hc n, formatElement_run h date cldr c hj hz n, hs]

theorem format_run_error (h : Helpers) (date : Date) (cldr : Cldr) (c : Char)
    (hc : c ∈ fieldLetters) (hj : c ≠ 'j') (hz : c ≠ 'Z') (n : Nat) (e : JSError)
    (hs : switchChr h date cldr (String.mk [c]) (n + 1) = .error e) :
    format h date (String.mk (List.replicate (n + 1) c)) cldr = .error e := by
  rw [format_run h date cldr c hc n, formatElement_run h date cldr c hj hz n, hs]

/-- C5, as stated, fails: without a month entry the call does not fail, it
returns the text "undefined". -/
theorem format_missing_entry_counterexample :
    emptyCldr.main [.string "dates/calendars/gregorian/months", .string "format",
        .string "abbreviated", .number 7] = .undefined ∧
      format sampleHelpers sampleDate "MMM" emptyCldr = .ok "undefined" :=
  ⟨rfl, rfl⟩

/-- C5 (amended): there is no error for missing locale data. When the accessor
returns `undefined` for the path a named-form field looks up (`G`; `Q`, `q`,
`M`, `L` of run length 3 or more; `E`, and `e`, `c` of run length 3 or more,
of a run length other than 6; `a`; `O` at offset zero), the call succeeds and
the field is the text "undefined". For `O` at a non-zero offset: without a
`gmtFormat` entry the call fails, with the error of the offset formatter or a
`TypeError`; without an `hourFormat` entry at run length 4 or more the offset
formatter receives `undefined` as its template, and the call fails when the
formatter throws or the `gmtFormat` entry is not a string. -/
theorem format_missing_entry (h : Helpers) (date : Date) (cldr : Cldr) (n : Nat) :
    (cldr.main [.string "dates/calendars/gregorian/eras",
        .string (if n + 1 ≤ 3 then "eraAbbr" else if n + 1 = 4 then "eraNames" else "eraNarrow"),
        .number (if date.getFullYear < 0 then 0 else 1)] = .undefined →
      format h date (String.mk (List.replicate (n + 1) 'G')) cldr = .ok "undefined") ∧
    (cldr.main [.string "dates/calendars/gregorian/quarters", .string "format", widthAt n,
        .number (ceilDiv ((date.getMonth : Int) + 1) 3)] = .undefined →
      format h date (String.mk (List.replicate (n + 3) 'Q')) cldr = .ok "undefined") ∧
    (cldr.main [.string "dates/calendars/gregorian/quarters", .string "stand-alone", widthAt n,
        .number (ceilDiv ((date.getMonth : Int) + 1) 3)] = .undefined →
      format h date (String.mk (List.replicate (n + 3) 'q')) cldr = .ok "undefined") ∧
    (cldr.main [.string "dates/calendars/gregorian/months", .string "format", widthAt n,
        .number ((date.getMonth : Int) + 1)] = .undefined →
      format h date (String.mk (List.replicate (n + 3) 'M')) cldr = .ok "undefined") ∧
    (cldr.main [.string "dates/calendars/gregorian/months", .string "stand-alone", widthAt n,
        .number ((date.getMonth : Int) + 1)] = .undefined →
      format h date (String.mk (List.replicate (n + 3) 'L')) cldr = .ok "undefined") ∧
    (n + 1 ≠ 6 →
      cldr.main [.string "dates/calendars/gregorian/days", .string "format",
        widthAt (if n + 1 < 3 then 0 else n + 1 - 3), weekDayKey h date] = .undefined →
      format h date (String.mk (List.replicate (n + 1) 'E')) cldr = .ok "undefined") ∧
    (n + 3 ≠ 6 →
      cldr.main [.string "dates/calendars/gregorian/days", .string "format", widthAt n,
        weekDayKey h date] = .undefined →
      format h date (String.mk (List.replicate (n + 3) 'e')) cldr = .ok "undefined") ∧
    (n + 3 ≠ 6 →
      cldr.main [.string "dates/calendars/gregorian/days", .string "stand-alone", widthAt n,
        weekDayKey h date] = .undefined →
      format h date (String.mk (List.replicate (n + 3) 'c')) cldr = .ok "undefined") ∧
    (cldr.main [.string "dates/calendars/gregorian/dayPeriods/format/wide",
        .string (if date.getHours < 12 then "am" else "pm")] = .undefined →
      format h date (String.mk (List.replicate (n + 1) 'a')) cldr = .ok "undefined") ∧
    (date.getTimezoneOffset = 0 →
      cldr.main [.string "dates/timeZoneNames/gmtZeroFormat"] = .undefined →
      format h date (String.mk (List.replicate (n + 1) 'O')) cldr = .ok "undefined") ∧
    (date.getTimezoneOffset ≠ 0 →
      cldr.main [.string "dates/timeZoneNames/gmtFormat"] = .undefined →
      ∃ e, format h date (String.mk (List.replicate (n + 1) 'O')) cldr = .error e) ∧
    (date.getTimezoneOffset ≠ 0 → 4 ≤ n + 1 →
      cldr.main [.string "dates/timeZoneNames/hourFormat"] = .undefined →
      format h date (String.mk (List.replicate (n + 1) 'O')) cldr
        = match h.dateTimezoneHourFormat date .undefined with
          | .error e => .error e
          | .ok r =>
            match cldr.main [.string "dates/timeZoneNames/gmtFormat"] with
            | .string g => .ok (replaceFirst g "\x7b0\x7d" r)
            | _ => .error .typeError) := by
  refine ⟨?_, ?_, ?_, ?_, ?_, ?_, ?_, ?_, ?_, ?_, ?_, ?_⟩
  · intro hm
    have hs : switchChr h date cldr (String.mk ['G']) (n + 1)
        = .ok (.value (cldr.main [.string "dates/calendars/gregorian/eras",
          .string (if n + 1 ≤ 3 then "eraAbbr" else if n + 1 = 4 then "eraNames" else "eraNarrow"),
          .number (if date.getFullYear < 0 then 0 else 1)]) false) := rfl
    rw [format_run_value h date cldr 'G' (by decide) (by decide) (by decide) (n) _ false hs,
      hm]
    rfl
  · intro hm
    have hs : switchChr h date cldr (String.mk ['Q']) (n + 2 + 1)
        = .ok (.value (cldr.main [.string "dates/calendars/gregorian/quarters",
          .string "format", widthAt n, .number (ceilDiv ((date.getMonth : Int) + 1) 3)]) false) := rfl
    rw [format_run_value h date cldr 'Q' (by decide) (by decide) (by decide) (n + 2) _ false hs,
      hm]
    rfl
  · intro hm
    have hs : switchChr h date cldr (String.mk ['q']) (n + 2 + 1)
        = .ok (.value (cldr.main [.string "dates/calendars/gregorian/quarters",
          .string "stand-alone", widthAt n, .number (ceilDiv ((date.getMonth : Int) + 1) 3)]) false) := rfl
    rw [format_run_value h date cldr 'q' (by decide) (by decide) (by decide) (n + 2) _ false hs,
      hm]
    rfl
  · intro hm
    have hs : switchChr h date cldr (String.mk ['M']) (n + 2 + 1)
        = .ok (.value (cldr.main [.string "dates/calendars/gregorian/months",
          .string "format", widthAt n, .number ((date.getMonth : Int) + 1)]) false) := rfl
    rw [format_run_value h date cldr 'M' (by decide) (by decide) (by decide) (n + 2) _ false hs,
      hm]
    rfl
  · intro hm
    have hs : switchChr h date cldr (String.mk ['L']) (n + 2 + 1)
        = .ok (.value (cldr.main [.string "dates/calendars/gregorian/months",
          .string "stand-alone", widthAt n, .number ((date.getMonth : Int) + 1)]) false) := rfl
    rw [format_run_value h date cldr 'L' (by decide) (by decide) (by decide) (n + 2) _ false hs,
      hm]
    rfl
  · intro hn hm
    have hs : switchChr h date cldr (String.mk ['E']) (n + 1)
        = .ok (.value (cldr.main [.string "dates/calendars/gregorian/days", .string "format",
            widthAt (if n + 1 < 3 then 0 else n + 1 - 3), weekDayKey h date]) false) := by
      show switchChr h date cldr "E" (n + 1) = _
      have h3 : ¬ (n + 2 + 1 < 3) := by omega
      simp [switchChr, caseE, hn, h3]
    rw [format_run_value h date cldr 'E' (by decide) (by decide) (by decide) (n) _ false hs,
      hm]
    rfl
  · intro hn hm
    have hs : switchChr h date cldr (String.mk ['e']) (n + 2 + 1)
        = .ok (.value (cldr.main [.string "dates/calendars/gregorian/days", .string "format",
            widthAt n, weekDayKey h date]) false) := by
      show switchChr h date cldr "e" (n + 2 + 1) = _
      have h3 : ¬ (n + 2 + 1 < 3) := by omega
      simp [switchChr, caseE, hn, h3]
    rw [format_run_value h date cldr 'e' (by decide) (by decide) (by decide) (n + 2) _ false hs,
      hm]
    rfl
  · intro hn hm
    have hs : switchChr h date cldr (String.mk ['c']) (n + 2 + 1)
        = .ok (.value (cldr.main [.string "dates/calendars/gregorian/days", .string "stand-alone",
            widthAt n, weekDayKey h date]) false) := by
      show switchChr h date cldr "c" (n + 2 + 1) = _
      have h3 : ¬ (n + 2 + 1 < 3) := by omega
      simp [switchChr, caseE, hn, h3]
    rw [format_run_value h date cldr 'c' (by decide) (by decide) (by decide) (n + 2) _ false hs,
      hm]
    rfl
  · intro hm
    have hs : switchChr h date cldr (String.mk ['a']) (n + 1)
        = .ok (.value (cldr.main [.string "dates/calendars/gregorian/dayPeriods/format/wide",
          .string (if date.getHours < 12 then "am" else "pm")]) false) := rfl
    rw [format_run_value h date cldr 'a' (by decide) (by decide) (by decide) (n) _ false hs,
      hm]
    rfl
  · intro h0 hm
    have hs : switchChr h date cldr (String.mk ['O']) (n + 1)
        = .ok (.value (cldr.main [.string "dates/timeZoneNames/gmtZeroFormat"]) false) := by
      show switchChr h date cldr "O" (n + 1) = _
      simp [switchChr, caseO, h0]
    rw [format_run_value h date cldr 'O' (by decide) (by decide) (by decide) n _ false hs, hm]
    rfl
  · intro h0 hm
    have hs : ∃ e, switchChr h date cldr (String.mk ['O']) (n + 1) = .error e := by
      show ∃ e, switchChr h date cldr "O" (n + 1) = .error e
      simp only [switchChr, caseO, if_neg h0, hm]
      cases h.dateTimezoneHourFormat date
          (if n + 1 < 4 then .string "+H;-H"
            else cldr.main [.string "dates/timeZoneNames/hourFormat"]) with
      | error e => exact ⟨e, rfl⟩
      | ok r => exact ⟨.typeError, rfl⟩
    obtain ⟨e, he⟩ := hs
    exact ⟨e, format_run_error h date cldr 'O' (by decide) (by decide) (by decide) n e he⟩
  · intro h0 h4 hm
    have hs : switchChr h date cldr (String.mk ['O']) (n + 1) = caseO h date cldr (n + 1) := rfl
    rw [format_run h date cldr 'O' (by decide) n,
      formatElement_run h date cldr 'O' (by decide) (by decide) n, hs]
    unfold caseO
    rw [if_neg h0, if_neg (by omega), hm]
    generalize h.dateTimezoneHourFormat date .undefined = r
    cases r with
    | error e => rfl
    | ok r =>
      generalize cldr.main [.string "dates/timeZoneNames/gmtFormat"] = g
      cases g <;> rfl

theorem format_missing_entry_witness :
    format sampleHelpers sampleDate (String.mk (List.replicate (0 + 1) 'a')) emptyCldr
        = .ok "undefined"
      ∧ format sampleHelpers sampleDate "OOOO" noHourFormatCldr = .error .typeError :=
  ⟨(format_missing_entry sampleHelpers sampleDate emptyCldr 0).2.2.2.2.2.2.2.2.1 rfl,
    ((format_missing_entry sampleHelpers sampleDate noHourFormatCldr 3).2.2.2.2.2.2.2.2.2.2.2
      (by decide) (by decide) rfl).trans rfl⟩

/-! ## Decimal strings and padding -/

theorem toDigitsCore_acc (f n : Nat) (ds : List Char) :
    Nat.toDigitsCore 10 f n ds = Nat.toDigitsCore 10 f n [] ++ ds := by
  induction f generalizing n ds with
  | zero => simp [Nat.toDigitsCore]
  | succ f ih =>
    simp only [Nat.toDigitsCore]
    split_ifs
    · simp
    · rw [ih (n / 10) (Nat.digitChar (n % 10) :: ds), ih (n / 10) [Nat.digitChar (n % 10)]]
      simp

theorem toDigitsCore_fuel (f g n : Nat) (hf : n < f) (hg : n < g) :
    Nat.toDigitsCore 10 f n [] = Nat.toDigitsCore 10 g n [] := by
  induction f generalizing n g with
  | zero => omega
  | succ f ih =>
    cases g with
    | zero => omega
    | succ g =>
      simp only [Nat.toDigitsCore]
      split_ifs with h0
      · rfl
      · have hpos : 0 < n := by
          rcases Nat.eq_zero_or_pos n with e | e
          · subst e; simp at h0
          · exact e
        have hlt : n / 10 < n := Nat.div_lt_self hpos (by decide)
        rw [toDigitsCore_acc f, toDigitsCore_acc g,
          ih g (n / 10) (by omega) (by omega)]

theorem toDigits_small (n : Nat) (hn : n < 10) : Nat.toDigits 10 n = [Nat.digitChar n] := by
  unfold Nat.toDigits
  simp only [Nat.toDigitsCore]
  have h0 : n / 10 = 0 := Nat.div_eq_of_lt hn
  have h1 : n % 10 = n := Nat.mod_eq_of_lt hn
  simp [h0, h1]

theorem toDigits_step (n : Nat) (hn : 10 ≤ n) :
    Nat.toDigits 10 n = Nat.toDigits 10 (n / 10) ++ [Nat.digitChar (n % 10)] := by
  have h0 : n / 10 ≠ 0 := by omega
  unfold Nat.toDigits
  rw [Nat.toDigitsCore]
  simp only [if_neg h0]
  rw [toDigitsCore_acc, toDigitsCore_fuel n (n / 10 + 1) (n / 10) (by omega) (by omega)]

theorem toDigits_length_pos (n : Nat) : 1 ≤ (Nat.toDigits 10 n).length := by
  by_cases hn : n < 10
  · rw [toDigits_small n hn]; simp
  · rw [toDigits_step n (by omega)]; simp

theorem toString_nat_data (n : Nat) : (toString n).data = Nat.toDigits 10 n := rfl

theorem toString_int_ofNat (n : Nat) : toString ((n : Nat) : Int) = toString n := rfl

theorem toString_length_pos (n : Nat) : 1 ≤ (toString n).length := toDigits_length_pos n

theorem stringPad_data (s : String) (count : Nat) :
    (stringPad s count).data = List.replicate (count - s.length) '0' ++ s.data := rfl

theorem stringPad_length (s : String) (count : Nat) :
    (stringPad s count).length = max count s.length := by
  show (List.replicate (count - s.length) '0' ++ s.data).length = _
  rw [List.length_append, List.length_replicate]
  show count - s.length + s.length = max count s.length
  omega

theorem stringPad_of_le (s : String) (count : Nat) (hs : count ≤ s.length) :
    stringPad s count = s := by
  unfold stringPad
  rw [Nat.sub_eq_zero_of_le hs]
  rfl

theorem toDigits_last_two (n : Nat) (hn : 10 ≤ n) :
    ∃ l, Nat.toDigits 10 n = l ++ twoDigits n := by
  rw [toDigits_step n hn]
  by_cases h2 : n / 10 < 10
  · refine ⟨[], ?_⟩
    rw [toDigits_small _ h2]
    unfold twoDigits
    rw [Nat.mod_eq_of_lt h2]
    rfl
  · refine ⟨Nat.toDigits 10 (n / 10 / 10), ?_⟩
    rw [toDigits_step _ (by omega)]
    simp [twoDigits]

theorem stringPad_two_small (n : Nat) (hn : n < 100) :
    (stringPad (toString n) 2).data = twoDigits n := by
  by_cases h1 : n < 10
  · rw [stringPad_data]
    show List.replicate (2 - (Nat.toDigits 10 n).length) '0' ++ Nat.toDigits 10 n = _
    rw [toDigits_small n h1]
    have e : n / 10 % 10 = 0 := by omega
    have e2 : n % 10 = n := by omega
    simp [twoDigits, e, e2]
    rfl
  · rw [stringPad_data]
    show List.replicate (2 - (Nat.toDigits 10 n).length) '0' ++ Nat.toDigits 10 n = _
    rw [toDigits_step n (by omega), toDigits_small (n / 10) (by omega)]
    have e : n / 10 % 10 = n / 10 := by omega
    simp [twoDigits, e]

/-! ## Plain year -/

theorem switchChr_y (h : Helpers) (date : Date) (cldr : Cldr) (n : Nat) :
    switchChr h date cldr (String.mk ['y']) n = .ok (.value (yearText date.getFullYear n) true) :=
  rfl

/-- C6: for a year `Y ≥ 0` and a run length other than 2, the field `y` is the
decimal string of `Y`, left-padded with `0` to the run length and never
truncated: its length is the larger of the run length and the number of digits. -/
theorem format_year_padded (h : Helpers) (date : Date) (cldr : Cldr) (Y n : Nat)
    (hy : date.getFullYear = (Y : Int)) (hn : n + 1 ≠ 2) :
    format h date (String.mk (List.replicate (n + 1) 'y')) cldr
        = .ok (String.mk (List.replicate (n + 1 - (toString Y).length) '0' ++ (toString Y).data))
      ∧ (List.replicate (n + 1 - (toString Y).length) '0' ++ (toString Y).data).length
        = max (n + 1) (toString Y).length := by
  constructor
  · rw [format_run_value h date cldr 'y' (by decide) (by decide) (by decide) n _ true
      (switchChr_y h date cldr (n + 1))]
    simp only [yearText, if_neg hn, hy, toString_int_ofNat, Value.toJSString, if_true]
    rfl
  · exact stringPad_length (toString Y) (n + 1)

theorem format_year_padded_witness :
    (format sampleHelpers sampleDate "yyyy" emptyCldr = .ok "2023"
      ∧ ("2023".data).length = max 4 ("2023".length))
    ∧ (format sampleHelpers { sampleDate with getFullYear := 5 } "yyyy" emptyCldr = .ok "0005"
      ∧ ("0005".data).length = max 4 ("5".length))
    ∧ (format sampleHelpers sampleDate "y" emptyCldr = .ok "2023"
      ∧ ("2023".data).length = max 1 ("2023".length)) :=
  ⟨format_year_padded sampleHelpers sampleDate emptyCldr 2023 3 rfl (by decide),
    format_year_padded sampleHelpers { sampleDate with getFullYear := 5 } emptyCldr 5 3 rfl
      (by decide),
    format_year_padded sampleHelpers sampleDate emptyCldr 2023 0 rfl (by decide)⟩

theorem twoDigits_mod (n : Nat) : twoDigits (n % 100) = twoDigits n := by
  unfold twoDigits
  have e1 : n % 100 / 10 % 10 = n / 10 % 10 := by omega
  have e2 : n % 100 % 10 = n % 10 := by omega
  rw [e1, e2]

theorem twoDigits_small (n : Nat) (hn : n < 10) : twoDigits n = ['0', Nat.digitChar n] := by
  unfold twoDigits
  have e1 : n / 10 % 10 = 0 := by omega
  have e2 : n % 10 = n := by omega
  rw [e1, e2]
  rfl

theorem string_eq_of_data (s t : String) (e : s.data = t.data) : s = t := by
  cases s
  cases t
  simp only at e
  rw [e]

theorem year_cut_data (Y : Nat) :
    (stringPad (substr (toString Y) (((toString Y).length : Int) - 2)) 2).data = twoDigits Y := by
  by_cases h1 : Y < 10
  · have hd : (toString Y).data = [Nat.digitChar Y] := toDigits_small Y h1
    have hl : (toString Y).length = 1 := by
      show (toString Y).data.length = 1
      rw [hd]; rfl
    have hs : (substr (toString Y) (((toString Y).length : Int) - 2)).data = [Nat.digitChar Y] := by
      unfold substr
      simp only [hl, hd]
      rfl
    rw [stringPad_data, hs, twoDigits_small Y h1]
    show List.replicate (2 - (substr (toString Y) (((toString Y).length : Int) - 2)).data.length)
      '0' ++ _ = _
    rw [hs]
    rfl
  · obtain ⟨l, hl⟩ := toDigits_last_two Y (by omega)
    have hd : (toString Y).data = l ++ twoDigits Y := hl
    have hlen : (toString Y).length = l.length + 2 := by
      show (toString Y).data.length = _
      rw [hd, List.length_append]
      rfl
    have hs : (substr (toString Y) (((toString Y).length : Int) - 2)).data = twoDigits Y := by
      unfold substr
      simp only [hlen, hd]
      have e : (if ((l.length + 2 : Nat) : Int) - 2 < 0
          then max (((l.length + 2 : Nat) : Int) + (((l.length + 2 : Nat) : Int) - 2)) 0
          else min (((l.length + 2 : Nat) : Int) - 2) ((l.length + 2 : Nat) : Int)).toNat
            = l.length := by
        rw [if_neg (by omega)]
        omega
      rw [e, List.drop_left]
    rw [stringPad_data, hs]
    show List.replicate (2 - (substr (toString Y) (((toString Y).length : Int) - 2)).data.length)
      '0' ++ _ = _
    rw [hs]
    rfl

theorem year_padded_cut (Y : Nat) :
    (stringPad (toString Y) 2).data.drop ((stringPad (toString Y) 2).length - 2) = twoDigits Y := by
  by_cases h1 : Y < 10
  · have hd : (toString Y).data = [Nat.digitChar Y] := toDigits_small Y h1
    have hp : (stringPad (toString Y) 2).data = ['0', Nat.digitChar Y] := by
      rw [stringPad_data]
      show List.replicate (2 - (toString Y).data.length) '0' ++ _ = _
      rw [hd]
      rfl
    show (stringPad (toString Y) 2).data.drop ((stringPad (toString Y) 2).data.length - 2) = _
    rw [hp, twoDigits_small Y h1]
    rfl
  · obtain ⟨l, hl⟩ := toDigits_last_two Y (by omega)
    have hd : (toString Y).data = l ++ twoDigits Y := hl
    have hlen : (toString Y).length = l.length + 2 := by
      show (toString Y).data.length = _
      rw [hd, List.length_append]
      rfl
    rw [stringPad_of_le _ _ (by omega), hlen, hd]
    simp

/-- C7: for a year `Y ≥ 0` the pattern `yy` gives exactly two characters, the
two-digit decimal of `Y mod 100`, which are the rightmost two characters of the
decimal string of `Y` zero-padded to at least two digits. -/
theorem format_year_two_digits (h : Helpers) (date : Date) (cldr : Cldr) (Y : Nat)
    (hy : date.getFullYear = (Y : Int)) :
    format h date "yy" cldr = .ok (stringPad (toString (Y % 100)) 2)
      ∧ (stringPad (toString (Y % 100)) 2).length = 2
      ∧ (stringPad (toString (Y % 100)) 2).data
        = (stringPad (toString Y) 2).data.drop ((stringPad (toString Y) 2).length - 2) := by
  have hmod : Y % 100 < 100 := Nat.mod_lt _ (by decide)
  have hdata : (stringPad (toString (Y % 100)) 2).data = twoDigits Y := by
    rw [stringPad_two_small _ hmod, twoDigits_mod]
  refine ⟨?_, ?_, ?_⟩
  · show format h date (String.mk (List.replicate (1 + 1) 'y')) cldr = _
    rw [format_run_value h date cldr 'y' (by decide) (by decide) (by decide) 1 _ true
      (switchChr_y h date cldr (1 + 1))]
    simp only [yearText, hy, toString_int_ofNat, Value.toJSString, if_true]
    congr 1
    apply string_eq_of_data
    rw [hdata]
    exact year_cut_data Y
  · show (stringPad (toString (Y % 100)) 2).data.length = 2
    rw [hdata]
    rfl
  · rw [hdata, year_padded_cut]

theorem format_year_two_digits_witness :
    (format sampleHelpers sampleDate "yy" emptyCldr = .ok "23")
      ∧ (format sampleHelpers { sampleDate with getFullYear := 2005 } "yy" emptyCldr = .ok "05")
      ∧ (format sampleHelpers { sampleDate with getFullYear := 5 } "yy" emptyCldr = .ok "05") :=
  ⟨(format_year_two_digits sampleHelpers sampleDate emptyCldr 2023 rfl).1,
    (format_year_two_digits sampleHelpers { sampleDate with getFullYear := 2005 } emptyCldr
      2005 rfl).1,
    (format_year_two_digits sampleHelpers { sampleDate with getFullYear := 5 } emptyCldr 5 rfl).1⟩

/-! ## Hours and months -/

theorem stringPad_one (n : Nat) : stringPad (toString n) 1 = toString n :=
  stringPad_of_le _ _ (toString_length_pos n)

/-- C8: for every hour (in particular for the hours 0..23), the field `H` is
the unpadded decimal of the hour and the field `h` is the unpadded decimal of
the one value in 1..12 that is congruent to the hour modulo 12. -/
theorem format_hour (h : Helpers) (date : Date) (cldr : Cldr) :
    format h date "H" cldr = .ok (toString date.getHours)
      ∧ ∃ v, (1 ≤ v ∧ v ≤ 12 ∧ v % 12 = date.getHours % 12)
        ∧ (∀ w, 1 ≤ w → w ≤ 12 → w % 12 = date.getHours % 12 → w = v)
        ∧ format h date "h" cldr = .ok (toString v) := by
  constructor
  · show format h date (String.mk (List.replicate (0 + 1) 'H')) cldr = _
    have hs : switchChr h date cldr (String.mk ['H']) (0 + 1)
        = .ok (.value (.number date.getHours) true) := rfl
    rw [format_run_value h date cldr 'H' (by decide) (by decide) (by decide) 0 _ true hs]
    simp only [Value.toJSString, toString_int_ofNat, if_true]
    rw [stringPad_one]
  · have hs : switchChr h date cldr (String.mk ['h']) (0 + 1)
        = .ok (.value ((Value.number ((date.getHours % 12 : Nat))).orElse (.number 12)) true) :=
      rfl
    have hf : format h date "h" cldr
        = .ok (stringPad ((Value.number ((date.getHours % 12 : Nat))).orElse
            (.number 12)).toJSString 1) := by
      show format h date (String.mk (List.replicate (0 + 1) 'h')) cldr = _
      rw [format_run_value h date cldr 'h' (by decide) (by decide) (by decide) 0 _ true hs]
      rfl
    by_cases h0 : date.getHours % 12 = 0
    · refine ⟨12, ⟨by omega, by omega, by omega⟩, fun w h1 h2 h3 => by omega, ?_⟩
      rw [hf, h0]
      rfl
    · refine ⟨date.getHours % 12, ⟨by omega, by omega, by omega⟩, fun w h1 h2 h3 => by omega, ?_⟩
      have ht : (Value.number ((date.getHours % 12 : Nat))).truthy = true := by
        simp only [Value.truthy, decide_eq_true_eq]
        exact_mod_cast h0
      rw [hf]
      simp only [Value.orElse, ht, if_true, Value.toJSString, toString_int_ofNat]
      rw [stringPad_one]

theorem format_hour_witness :
    (format sampleHelpers sampleDate "H" emptyCldr = .ok "13"
      ∧ format sampleHelpers sampleDate "h" emptyCldr = .ok "1")
    ∧ (format sampleHelpers { sampleDate with getHours := 0 } "H" emptyCldr = .ok "0"
      ∧ format sampleHelpers { sampleDate with getHours := 0 } "h" emptyCldr = .ok "12")
    ∧ format sampleHelpers { sampleDate with getHours := 12 } "h" emptyCldr = .ok "12" := by
  have a := format_hour sampleHelpers sampleDate emptyCldr
  have b := format_hour sampleHelpers { sampleDate with getHours := 0 } emptyCldr
  exact ⟨⟨a.1, rfl⟩, ⟨b.1, rfl⟩, rfl⟩

theorem switchChr_M_numeric (h : Helpers) (date : Date) (cldr : Cldr) (c : Char)
    (hc : c = 'M' ∨ c = 'L') (n : Nat) (hn : n ≤ 2) :
    switchChr h date cldr (String.mk [c]) n
      = .ok (.value (.number ((date.getMonth : Int) + 1)) true) := by
  rcases hc with rfl | rfl
  · show switchChr h date cldr "M" n = _
    simp [switchChr, hn]
  · show switchChr h date cldr "L" n = _
    simp [switchChr, hn]

theorem format_month_numeric (h : Helpers) (date : Date) (cldr : Cldr) (c : Char)
    (hc : c = 'M' ∨ c = 'L') (n : Nat) (hn : n + 1 ≤ 2) :
    format h date (String.mk (List.replicate (n + 1) c)) cldr
      = .ok (stringPad (toString (date.getMonth + 1)) (n + 1)) := by
  have hl : c ∈ fieldLetters := by rcases hc with rfl | rfl <;> decide
  have hj : c ≠ 'j' := by rcases hc with rfl | rfl <;> decide
  have hz : c ≠ 'Z' := by rcases hc with rfl | rfl <;> decide
  rw [format_run_value h date cldr c hl hj hz n _ true
    (switchChr_M_numeric h date cldr c hc (n + 1) hn)]
  have e : ((date.getMonth : Int) + 1) = ((date.getMonth + 1 : Nat) : Int) := by push_cast; rfl
  simp only [Value.toJSString, e, toString_int_ofNat, if_true]

/-- C9: for a month index `m` in 0..11, `M` is the decimal string of `m + 1`
without padding and `MM` is the same string left-padded with `0` to width 2, so
the two differ only by leading zeros; likewise for `L` and `LL`. -/
theorem format_month_number (h : Helpers) (date : Date) (cldr : Cldr)
    (hm : date.getMonth ≤ 11) :
    (format h date "M" cldr = .ok (toString (date.getMonth + 1))
      ∧ format h date "MM" cldr
        = .ok (String.mk (List.replicate (2 - (toString (date.getMonth + 1)).length) '0'
            ++ (toString (date.getMonth + 1)).data))
      ∧ format h date "L" cldr = .ok (toString (date.getMonth + 1))
      ∧ format h date "LL" cldr
        = .ok (String.mk (List.replicate (2 - (toString (date.getMonth + 1)).length) '0'
            ++ (toString (date.getMonth + 1)).data)))
    ∧ (List.replicate (2 - (toString (date.getMonth + 1)).length) '0'
            ++ (toString (date.getMonth + 1)).data).length = 2 := by
  refine ⟨⟨?_, ?_, ?_, ?_⟩, ?_⟩
  · show format h date (String.mk (List.replicate (0 + 1) 'M')) cldr = _
    rw [format_month_numeric h date cldr 'M' (Or.inl rfl) 0 (by decide), stringPad_one]
  · exact format_month_numeric h date cldr 'M' (Or.inl rfl) 1 (by decide)
  · show format h date (String.mk (List.replicate (0 + 1) 'L')) cldr = _
    rw [format_month_numeric h date cldr 'L' (Or.inr rfl) 0 (by decide), stringPad_one]
  · exact format_month_numeric h date cldr 'L' (Or.inr rfl) 1 (by decide)
  · have hlen : (toString (date.getMonth + 1)).length ≤ 2 :=
      Nat.repr_length (date.getMonth + 1) 2 (by decide) (by norm_num; omega)
    have := stringPad_length (toString (date.getMonth + 1)) 2
    rw [Nat.max_eq_left hlen] at this
    exact this

theorem format_month_number_witness :
    (format sampleHelpers sampleDate "M" emptyCldr = .ok "7"
      ∧ format sampleHelpers sampleDate "MM" emptyCldr = .ok "07"
      ∧ format sampleHelpers sampleDate "L" emptyCldr = .ok "7"
      ∧ format sampleHelpers sampleDate "LL" emptyCldr = .ok "07")
    ∧ ("07".data).length = 2 :=
  format_month_number sampleHelpers sampleDate emptyCldr (by decide)

theorem widthAt_values :
    widthAt (3 - 3) = .string "abbreviated" ∧ widthAt (4 - 3) = .string "wide"
      ∧ widthAt (5 - 3) = .string "narrow" :=
  ⟨rfl, rfl, rfl⟩

/-- C10: for run lengths 3, 4 and 5 the field `M` yields verbatim the entry at
months / format / width / (month + 1) and the field `L` the entry at
months / stand-alone / width / (month + 1), the width being "abbreviated",
"wide" and "narrow" in turn. -/
theorem format_month_name (h : Helpers) (date : Date) (cldr : Cldr) (n : Nat) (s : String)
    (hn : n = 3 ∨ n = 4 ∨ n = 5) :
    (cldr.main [.string "dates/calendars/gregorian/months", .string "format",
        .string (if n = 3 then "abbreviated" else if n = 4 then "wide" else "narrow"),
        .number ((date.getMonth : Int) + 1)] = .string s →
      format h date (String.mk (List.replicate n 'M')) cldr = .ok s)
    ∧ (cldr.main [.string "dates/calendars/gregorian/months", .string "stand-alone",
        .string (if n = 3 then "abbreviated" else if n = 4 then "wide" else "narrow"),
        .number ((date.getMonth : Int) + 1)] = .string s →
      format h date (String.mk (List.replicate n 'L')) cldr = .ok s) := by
  have hw : widthAt (n - 3)
      = .string (if n = 3 then "abbreviated" else if n = 4 then "wide" else "narrow") := by
    rcases hn with rfl | rfl | rfl <;> rfl
  obtain ⟨k, rfl⟩ : ∃ k, n = k + 2 + 1 := ⟨n - 3, by omega⟩
  constructor
  · intro he
    have hs : switchChr h date cldr (String.mk ['M']) (k + 2 + 1)
        = .ok (.value (cldr.main [.string "dates/calendars/gregorian/months", .string "format",
            widthAt (k + 2 + 1 - 3), .number ((date.getMonth : Int) + 1)]) false) := rfl
    rw [format_run_value h date cldr 'M' (by decide) (by decide) (by decide) (k + 2) _ false hs,
      hw, he]
    rfl
  · intro he
    have hs : switchChr h date cldr (String.mk ['L']) (k + 2 + 1)
        = .ok (.value (cldr.main [.string "dates/calendars/gregorian/months",
            .string "stand-alone", widthAt (k + 2 + 1 - 3),
            .number ((date.getMonth : Int) + 1)]) false) := rfl
    rw [format_run_value h date cldr 'L' (by decide) (by decide) (by decide) (k + 2) _ false hs,
      hw, he]
    rfl

theorem format_month_name_witness :
    format sampleHelpers sampleDate "MMMM" englishCldr = .ok "July"
      ∧ format sampleHelpers sampleDate "LLL" englishCldr = .ok "Jul" :=
  ⟨(format_month_name sampleHelpers sampleDate englishCldr 4 "July" (by decide)).1 rfl,
    (format_month_name sampleHelpers sampleDate englishCldr 3 "Jul" (by decide)).2 rfl⟩

/-! ## Zone offsets -/

theorem caseLowerX_eq (h : Helpers) (date : Date) (n : Nat) :
    caseLowerX h date n
      = match h.dateTimezoneHourFormat date (.string (offsetTemplate n)) with
        | .error e => .error e
        | .ok r => .ok (.value (.string r) false) :=
  rfl

theorem format_run_x (h : Helpers) (date : Date) (cldr : Cldr) (n : Nat) :
    format h date (String.mk (List.replicate (n + 1) 'x')) cldr
      = h.dateTimezoneHourFormat date (.string (offsetTemplate (n + 1))) := by
  have hs : switchChr h date cldr (String.mk ['x']) (n + 1) = caseLowerX h date (n + 1) := rfl
  rw [format_run h date cldr 'x' (by decide) n,
    formatElement_run h date cldr 'x' (by decide) (by decide) n, hs, caseLowerX_eq]
  generalize h.dateTimezoneHourFormat date (.string (offsetTemplate (n + 1))) = r
  cases r <;> rfl

theorem format_run_X (h : Helpers) (date : Date) (cldr : Cldr) (n : Nat) :
    format h date (String.mk (List.replicate (n + 1) 'X')) cldr
      = if date.getTimezoneOffset = 0 then .ok "Z"
        else h.dateTimezoneHourFormat date (.string (offsetTemplate (n + 1))) := by
  have hs : switchChr h date cldr (String.mk ['X']) (n + 1) = caseX h date (n + 1) := rfl
  rw [format_run h date cldr 'X' (by decide) n,
    formatElement_run h date cldr 'X' (by decide) (by decide) n, hs]
  unfold caseX
  split_ifs with h0
  · rfl
  · rw [caseLowerX_eq]
    generalize h.dateTimezoneHourFormat date (.string (offsetTemplate (n + 1))) = r
    cases r <;> rfl

/-- C11: for every run length, the field `X` is exactly "Z" at offset zero and
is otherwise what the field `x` of the same run length yields. -/
theorem format_X_field (h : Helpers) (date : Date) (cldr : Cldr) (n : Nat) :
    (date.getTimezoneOffset = 0 →
      format h date (String.mk (List.replicate (n + 1) 'X')) cldr = .ok "Z")
    ∧ (date.getTimezoneOffset ≠ 0 →
      format h date (String.mk (List.replicate (n + 1) 'X')) cldr
        = format h date (String.mk (List.replicate (n + 1) 'x')) cldr) := by
  constructor
  · intro h0
    rw [format_run_X, if_pos h0]
  · intro h0
    rw [format_run_X, if_neg h0, format_run_x]

theorem format_X_field_witness :
    format sampleHelpers { sampleDate with getTimezoneOffset := 0 } "X" englishCldr = .ok "Z"
      ∧ format sampleHelpers sampleDate "XXX" englishCldr
        = format sampleHelpers sampleDate "xxx" englishCldr :=
  ⟨(format_X_field sampleHelpers { sampleDate with getTimezoneOffset := 0 } englishCldr 0).1 rfl,
    (format_X_field sampleHelpers sampleDate englishCldr 2).2 (by decide)⟩

/-- C12: the field `x` of run length `n` is the result of the offset formatter
for the template "+HH;-HH" when `n = 1`, "+HH:mm;-HH:mm" when `n` is odd and
greater than 1, and "+HHmm;-HHmm" when `n` is even; the padder is not applied. -/
theorem format_x_field (h : Helpers) (date : Date) (cldr : Cldr) (n : Nat) (hn : 1 ≤ n) :
    format h date (String.mk (List.replicate n 'x')) cldr
        = h.dateTimezoneHourFormat date (.string (offsetTemplate n))
      ∧ (n = 1 → offsetTemplate n = "+HH;-HH")
      ∧ (1 < n → n % 2 = 1 → offsetTemplate n = "+HH:mm;-HH:mm")
      ∧ (n % 2 = 0 → offsetTemplate n = "+HHmm;-HHmm") := by
  obtain ⟨k, rfl⟩ : ∃ k, n = k + 1 := ⟨n - 1, by omega⟩
  refine ⟨format_run_x h date cldr k, ?_, ?_, ?_⟩
  · intro h1
    simp [offsetTemplate, h1]
  · intro h1 h2
    have h3 : ¬ (k + 1 = 1) := by omega
    simp [offsetTemplate, h3, h2]
  · intro h2
    have h3 : ¬ (k + 1 = 1) := by omega
    simp [offsetTemplate, h3, h2]

theorem format_x_field_witness :
    format sampleHelpers sampleDate "xxx" englishCldr
        = sampleHelpers.dateTimezoneHourFormat sampleDate (.string "+HH:mm;-HH:mm") :=
  (format_x_field sampleHelpers sampleDate englishCldr 3 (by decide)).1

theorem formatElement_Z_run (h : Helpers) (date : Date) (cldr : Cldr) (n : Nat) :
    formatElement h date cldr (String.mk (List.replicate (n + 1) 'Z'))
      = match switchChr h date cldr
            (if n + 1 < 4 then "x" else if n + 1 < 5 then "O" else "X")
            (if n + 1 < 4 then 4 else if n + 1 < 5 then 4 else 5) with
        | .error e => .error e
        | .ok .literal => .ok (String.mk (List.replicate (n + 1) 'Z'))
        | .ok (.value ret pad) =>
          .ok (if pad then stringPad ret.toJSString
              (if n + 1 < 4 then 4 else if n + 1 < 5 then 4 else 5) else ret.toJSString) := by
  have h0 : charAt0 (String.mk (List.replicate (n + 1) 'Z')) = "Z" := rfl
  have hj : ¬ ("Z" = "j") := by decide
  unfold formatElement
  simp only [h0, if_neg hj, if_true, String.length, List.length_replicate]

theorem format_run_O (h : Helpers) (date : Date) (cldr : Cldr) (n : Nat) :
    format h date (String.mk (List.replicate (n + 1) 'O')) cldr
      = match caseO h date cldr (n + 1) with
        | .error e => .error e
        | .ok .literal => .ok (String.mk (List.replicate (n + 1) 'O'))
        | .ok (.value ret pad) =>
          .ok (if pad then stringPad ret.toJSString (n + 1) else ret.toJSString) := by
  rw [format_run h date cldr 'O' (by decide) n,
    formatElement_run h date cldr 'O' (by decide) (by decide) n]
  rfl

theorem caseO_not_literal (h : Helpers) (date : Date) (cldr : Cldr) (n : Nat) :
    caseO h date cldr n ≠ .ok .literal := by
  unfold caseO
  by_cases h0 : date.getTimezoneOffset = 0
  · rw [if_pos h0]
    intro k
    cases k
  · rw [if_neg h0]
    generalize h.dateTimezoneHourFormat date _ = r
    cases r with
    | error e => intro k; cases k
    | ok r =>
      generalize cldr.main [.string "dates/timeZoneNames/gmtFormat"] = g
      cases g <;> (intro k; cases k)

/-- C13: the patterns `Z`, `ZZ` and `ZZZ` give what `xxxx` gives, `ZZZZ` gives
what `OOOO` gives and `ZZZZZ` gives what `XXXXX` gives. -/
theorem format_Z_field (h : Helpers) (date : Date) (cldr : Cldr) :
    format h date "Z" cldr = format h date "xxxx" cldr
      ∧ format h date "ZZ" cldr = format h date "xxxx" cldr
      ∧ format h date "ZZZ" cldr = format h date "xxxx" cldr
      ∧ format h date "ZZZZ" cldr = format h date "OOOO" cldr
      ∧ format h date "ZZZZZ" cldr = format h date "XXXXX" cldr := by
  have hx : format h date "xxxx" cldr
      = h.dateTimezoneHourFormat date (.string (offsetTemplate 4)) :=
    format_run_x h date cldr 3
  have hZ : ∀ n, n + 1 < 4 → format h date (String.mk (List.replicate (n + 1) 'Z')) cldr
      = h.dateTimezoneHourFormat date (.string (offsetTemplate 4)) := by
    intro n hn
    have hs : switchChr h date cldr "x" 4 = caseLowerX h date 4 := rfl
    rw [format_run h date cldr 'Z' (by decide) n, formatElement_Z_run]
    simp only [if_pos hn, hs, caseLowerX_eq]
    generalize h.dateTimezoneHourFormat date (.string (offsetTemplate 4)) = r
    cases r <;> rfl
  refine ⟨?_, ?_, ?_, ?_, ?_⟩
  · rw [hx]; exact hZ 0 (by decide)
  · rw [hx]; exact hZ 1 (by decide)
  · rw [hx]; exact hZ 2 (by decide)
  · have hs : switchChr h date cldr "O" 4 = caseO h date cldr 4 := rfl
    have e1 : format h date "ZZZZ" cldr = _ :=
      (format_run h date cldr 'Z' (by decide) 3).trans (formatElement_Z_run h date cldr 3)
    have e2 : format h date "OOOO" cldr = _ := format_run_O h date cldr 3
    rw [e1, e2]
    simp only [show ¬ (3 + 1 < 4) by decide, show (3 + 1 < 5) by decide, if_true, if_false, hs]
    have hl := caseO_not_literal h date cldr 4
    generalize caseO h date cldr 4 = r at hl
    match r, hl with
    | .error e, _ => rfl
    | .ok .literal, hl => exact absurd rfl hl
    | .ok (.value ret pad), _ => rfl
  · have e1 : format h date "ZZZZZ" cldr = _ :=
      (format_run h date cldr 'Z' (by decide) 4).trans (formatElement_Z_run h date cldr 4)
    have e2 : format h date "XXXXX" cldr = _ := format_run_X h date cldr 4
    have hs : switchChr h date cldr "X" 5 = caseX h date 5 := rfl
    rw [e1, e2]
    simp only [show ¬ (4 + 1 < 4) by decide, show ¬ (4 + 1 < 5) by decide, if_false, hs]
    unfold caseX
    split_ifs with h0
    · rfl
    · rw [caseLowerX_eq]
      generalize h.dateTimezoneHourFormat date (.string (offsetTemplate (4 + 1))) = r
      cases r <;> rfl

theorem format_Z_field_witness :
    format sampleHelpers sampleDate "ZZZZ" englishCldr = .ok "GMT+5:30"
      ∧ format sampleHelpers { sampleDate with getTimezoneOffset := 0 } "ZZZZZ" englishCldr
        = .ok "Z" :=
  ⟨(format_Z_field sampleHelpers sampleDate englishCldr).2.2.2.1.trans rfl,
    (format_Z_field sampleHelpers { sampleDate with getTimezoneOffset := 0 }
      englishCldr).2.2.2.2.trans rfl⟩

/-! ## Day of week in month, weekday names, quarters -/

theorem format_F_value (h : Helpers) (date : Date) (cldr : Cldr) :
    format h date "F" cldr = .ok (toString (date.getDate / 7 + 1)) := by
  have hs : switchChr h date cldr (String.mk ['F']) (0 + 1)
      = .ok (.value (.number ((date.getDate / 7 : Nat) + 1)) false) := rfl
  show format h date (String.mk (List.replicate (0 + 1) 'F')) cldr = _
  rw [format_run_value h date cldr 'F' (by decide) (by decide) (by decide) 0 _ false hs]
  have e : (((date.getDate / 7 : Nat) : Int) + 1) = ((date.getDate / 7 + 1 : Nat) : Int) := by
    push_cast; rfl
  simp only [Value.toJSString, e, toString_int_ofNat]
  rfl

/-- C14: the code is off by one on the days 7, 14, 21 and 28. For the 7th of a
month the field `F` is "2", although the 7th is the first occurrence of its
weekday in the month; for the 8th both agree on 2. -/
theorem format_F_seventh_day :
    format sampleHelpers { sampleDate with getDate := 7 } "F" englishCldr = .ok "2"
      ∧ dayOfWeekInMonth 7 = 1
      ∧ format sampleHelpers { sampleDate with getDate := 8 } "F" englishCldr = .ok "2"
      ∧ dayOfWeekInMonth 8 = 2 :=
  ⟨rfl, rfl, rfl, rfl⟩

/-- The field `F` is the ordinal of the day when the day of the month is not
a multiple of 7, and the ordinal plus one when it is. -/
theorem format_F_ordinal (h : Helpers) (date : Date) (cldr : Cldr)
    (hd1 : 1 ≤ date.getDate) (hd2 : date.getDate ≤ 31) :
    format h date "F" cldr
      = .ok (toString (dayOfWeekInMonth date.getDate
          + (if date.getDate % 7 = 0 then 1 else 0))) := by
  rw [format_F_value]
  have key : ∀ d, 1 ≤ d → d ≤ 31 →
      d / 7 + 1 = dayOfWeekInMonth d + (if d % 7 = 0 then 1 else 0) := by
    decide
  rw [key date.getDate hd1 hd2]

theorem switchChr_Q_numeric (h : Helpers) (date : Date) (cldr : Cldr) (c : Char)
    (hc : c = 'Q' ∨ c = 'q') (n : Nat) (hn : n ≤ 2) :
    switchChr h date cldr (String.mk [c]) n
      = .ok (.value (.number (ceilDiv ((date.getMonth : Int) + 1) 3)) true) := by
  rcases hc with rfl | rfl
  · show switchChr h date cldr "Q" n = _
    simp [switchChr, hn]
  · show switchChr h date cldr "q" n = _
    simp [switchChr, hn]

theorem quarter_value (m : Nat) : ceilDiv ((m : Int) + 1) 3 = ((m / 3 + 1 : Nat) : Int) := by
  unfold ceilDiv
  push_cast
  omega

theorem format_quarter_numeric (h : Helpers) (date : Date) (cldr : Cldr) (c : Char)
    (hc : c = 'Q' ∨ c = 'q') (n : Nat) (hn : n + 1 ≤ 2) :
    format h date (String.mk (List.replicate (n + 1) c)) cldr
      = .ok (stringPad (toString (date.getMonth / 3 + 1)) (n + 1)) := by
  have hl : c ∈ fieldLetters := by rcases hc with rfl | rfl <;> decide
  have hj : c ≠ 'j' := by rcases hc with rfl | rfl <;> decide
  have hz : c ≠ 'Z' := by rcases hc with rfl | rfl <;> decide
  rw [format_run_value h date cldr c hl hj hz n _ true
    (switchChr_Q_numeric h date cldr c hc (n + 1) hn)]
  simp only [Value.toJSString, quarter_value, toString_int_ofNat, if_true]

/-- C16: for a month index `m` in 0..11 and run length 1 or 2, the fields `Q`
and `q` are the quarter number `ceil((m + 1) / 3)`, which lies in 1..4 and
equals `floor(m / 3) + 1`, as a decimal string zero-padded to the run length. -/
theorem format_quarter_number (h : Helpers) (date : Date) (cldr : Cldr) (c : Char) (n : Nat)
    (hm : date.getMonth ≤ 11) (hc : c = 'Q' ∨ c = 'q') (hn : n = 1 ∨ n = 2) :
    format h date (String.mk (List.replicate n c)) cldr
        = .ok (String.mk (List.replicate (n - (toString (date.getMonth / 3 + 1)).length) '0'
            ++ (toString (date.getMonth / 3 + 1)).data))
      ∧ (toString (date.getMonth / 3 + 1)).length = 1
      ∧ ceilDiv ((date.getMonth : Int) + 1) 3 = ((date.getMonth / 3 + 1 : Nat) : Int)
      ∧ 1 ≤ date.getMonth / 3 + 1 ∧ date.getMonth / 3 + 1 ≤ 4 := by
  refine ⟨?_, ?_, quarter_value _, by omega, by omega⟩
  · obtain ⟨k, rfl⟩ : ∃ k, n = k + 1 := ⟨n - 1, by omega⟩
    exact format_quarter_numeric h date cldr c hc k (by omega)
  · have h1 : date.getMonth / 3 + 1 < 10 := by omega
    show (toString (date.getMonth / 3 + 1)).data.length = 1
    rw [toString_nat_data, toDigits_small _ h1]
    rfl

theorem format_quarter_number_witness :
    format sampleHelpers sampleDate "Q" englishCldr = .ok "3"
      ∧ format sampleHelpers sampleDate "qq" englishCldr = .ok "03" :=
  ⟨(format_quarter_number sampleHelpers sampleDate englishCldr 'Q' 1 (by decide)
      (Or.inl rfl) (Or.inl rfl)).1,
    (format_quarter_number sampleHelpers sampleDate englishCldr 'q' 2 (by decide)
      (Or.inr rfl) (Or.inr rfl)).1⟩

theorem format_weekday_six_value (h : Helpers) (date : Date) (cldr : Cldr) (c : Char)
    (hc : c = 'E' ∨ c = 'e' ∨ c = 'c') :
    format h date (String.mk (List.replicate 6 c)) cldr
      = .ok ((cldr.main [.string "dates/calendars/gregorian/days",
            .string (if c = 'c' then "stand-alone" else "format"), .string "short",
            weekDayKey h date]).orElse
          (cldr.main [.string "dates/calendars/gregorian/days",
            .string (if c = 'c' then "stand-alone" else "format"), .string "abbreviated",
            weekDayKey h date])).toJSString := by
  rcases hc with rfl | rfl | rfl
  · have hs : switchChr h date cldr (String.mk ['E']) (5 + 1)
        = .ok (.value (caseE h date cldr "E" 6) false) := rfl
    exact format_run_value h date cldr 'E' (by decide) (by decide) (by decide) 5 _ false hs
  · have hs : switchChr h date cldr (String.mk ['e']) (5 + 1)
        = .ok (.value (caseE h date cldr "e" 6) false) := rfl
    exact format_run_value h date cldr 'e' (by decide) (by decide) (by decide) 5 _ false hs
  · have hs : switchChr h date cldr (String.mk ['c']) (5 + 1)
        = .ok (.value (caseE h date cldr "c" 6) false) := rfl
    exact format_run_value h date cldr 'c' (by decide) (by decide) (by decide) 5 _ false hs

/-- C15, as stated, fails: a short entry that is present but empty is skipped
by `||`, and the abbreviated name is written. -/
theorem format_weekday_six_counterexample :
    emptyShortCldr.main [.string "dates/calendars/gregorian/days", .string "format",
        .string "short", weekDayKey sampleHelpers sampleDate] = .string ""
      ∧ format sampleHelpers sampleDate "EEEEEE" emptyShortCldr = .ok "Wed" :=
  ⟨rfl, rfl⟩

/-- C15 (amended): for the run length 6 the weekday fields `E`, `e` and `c`
yield, without padding, the "short" entry of the weekday when it is a
non-empty string, and the "abbreviated" entry (as text) when the short entry is
absent or is the empty string; the form is "stand-alone" for `c` and "format"
for `E` and `e`. -/
theorem format_weekday_six (h : Helpers) (date : Date) (cldr : Cldr) (c : Char)
    (hc : c = 'E' ∨ c = 'e' ∨ c = 'c') :
    (∀ s : String, s ≠ "" →
      cldr.main [.string "dates/calendars/gregorian/days",
        .string (if c = 'c' then "stand-alone" else "format"), .string "short",
        weekDayKey h date] = .string s →
      format h date (String.mk (List.replicate 6 c)) cldr = .ok s)
    ∧ (cldr.main [.string "dates/calendars/gregorian/days",
          .string (if c = 'c' then "stand-alone" else "format"), .string "short",
          weekDayKey h date] = .undefined
        ∨ cldr.main [.string "dates/calendars/gregorian/days",
          .string (if c = 'c' then "stand-alone" else "format"), .string "short",
          weekDayKey h date] = .string "" →
      format h date (String.mk (List.replicate 6 c)) cldr
        = .ok (cldr.main [.string "dates/calendars/gregorian/days",
            .string (if c = 'c' then "stand-alone" else "format"), .string "abbreviated",
            weekDayKey h date]).toJSString) := by
  constructor
  · intro s hs he
    rw [format_weekday_six_value h date cldr c hc, he]
    simp [Value.orElse, Value.truthy, hs, Value.toJSString]
  · intro he
    rw [format_weekday_six_value h date cldr c hc]
    rcases he with he | he <;> rw [he] <;> rfl

theorem format_weekday_six_witness :
    format sampleHelpers sampleDate "EEEEEE" englishCldr = .ok "We"
      ∧ format sampleHelpers sampleDate "cccccc" englishCldr = .ok "Wed" :=
  ⟨(format_weekday_six sampleHelpers sampleDate englishCldr 'E' (Or.inl rfl)).1 "We"
      (by decide) rfl,
    (format_weekday_six sampleHelpers sampleDate englishCldr 'c' (Or.inr (Or.inr rfl))).2
      (Or.inl rfl)⟩

/-! ## Week of year and year of the week -/

theorem format_w_value (h : Helpers) (date : Date) (cldr : Cldr) :
    format h date "w" cldr
      = .ok (stringPad (toString
          (ceilDiv (h.dateDayOfYear date + h.dateDayOfWeek (h.dateStartOf date "year") cldr) 7
            - (if 7 - h.dateDayOfWeek (h.dateStartOf date "year") cldr ≥ cldr.minDays
                then 0 else 1))) 1) := by
  have hs : switchChr h date cldr (String.mk ['w']) (0 + 1)
      = .ok (.value (.number
          (ceilDiv (h.dateDayOfYear date + h.dateDayOfWeek (h.dateStartOf date "year") cldr) 7
            - (if 7 - h.dateDayOfWeek (h.dateStartOf date "year") cldr ≥ cldr.minDays
                then 0 else 1))) true) := rfl
  show format h date (String.mk (List.replicate (0 + 1) 'w')) cldr = _
  rw [format_run_value h date cldr 'w' (by decide) (by decide) (by decide) 0 _ true hs]
  rfl

/-- The week number of the code steps up from day `k` to day `k + 1` of a year
exactly when day `k` itself is the first day of a week (`r` is the index of
1 January in its week): one day after the week boundary. -/
theorem week_number_step (k r : Int) :
    ceilDiv (k + 1 + r) 7 = ceilDiv (k + r) 7 + (if (k + r) % 7 = 0 then 1 else 0) := by
  unfold ceilDiv
  split_ifs <;> omega

/-- C17: the week number of the code changes one day late. With weeks that
start on Sunday and `minDays = 1`: Saturday 2023-01-07 and Sunday 2023-01-08
are consecutive days (0-based days 6 and 7 of the year), the second is the
first day of a week, and both get the week number 1; Sunday 2023-01-01 gets 0
and Monday 2023-01-02, which is not the first day of a week, gets 1. -/
theorem format_w_changes_late :
    (sampleHelpers.dateDayOfYear { sampleDate with getMonth := 0, getDate := 7 } = 6
      ∧ sampleHelpers.dateDayOfYear { sampleDate with getMonth := 0, getDate := 8 } = 7
      ∧ sampleHelpers.dateDayOfWeek { sampleDate with getMonth := 0, getDate := 8 }
          englishCldr = 0
      ∧ format sampleHelpers { sampleDate with getMonth := 0, getDate := 7 } "w" englishCldr
          = .ok "1"
      ∧ format sampleHelpers { sampleDate with getMonth := 0, getDate := 8 } "w" englishCldr
          = .ok "1")
    ∧ (sampleHelpers.dateDayOfYear { sampleDate with getMonth := 0, getDate := 1 } = 0
      ∧ sampleHelpers.dateDayOfYear { sampleDate with getMonth := 0, getDate := 2 } = 1
      ∧ sampleHelpers.dateDayOfWeek { sampleDate with getMonth := 0, getDate := 2 }
          englishCldr = 1
      ∧ format sampleHelpers { sampleDate with getMonth := 0, getDate := 1 } "w" englishCldr
          = .ok "0"
      ∧ format sampleHelpers { sampleDate with getMonth := 0, getDate := 2 } "w" englishCldr
          = .ok "1") :=
  ⟨⟨rfl, rfl, rfl, rfl, rfl⟩, ⟨rfl, rfl, rfl, rfl, rfl⟩⟩

theorem makeDay_of_month_le (y : Int) (m : Nat) (dt : Int) (hm : m ≤ 11) :
    makeDay y m dt = dayFromYear y + monthStart (daysInYear y) m + dt - 1 := by
  have h1 : m / 12 = 0 := by omega
  have h2 : m % 12 = m := by omega
  unfold makeDay
  simp only [h1, h2, Nat.cast_zero, add_zero]

theorem switchChr_Y (h : Helpers) (date : Date) (cldr : Cldr) (n : Nat) :
    switchChr h date cldr (String.mk ['Y']) n
      = .ok (.value (yearText (date.setDate ((date.getDate : Int) + 7
          - (h.dateDayOfWeek date cldr - h.dateFirstDayOfWeek cldr)
          - cldr.minDays)).getFullYear n) true) :=
  rfl

/-- C18: for an instant whose 0-based day of the year is at least 6 and at
most the last day of the year minus 12, with a day-of-week index and a first
day of the week in 0..6 and `minDays` in 1..7, the field `Y` yields for every
run length the same string as the field `y`. -/
theorem format_week_year_eq_year (h : Helpers) (date : Date) (cldr : Cldr) (n : Nat)
    (hm : date.getMonth ≤ 11)
    (h6 : 6 ≤ date.dayOfYear)
    (h12 : date.dayOfYear + 12 ≤ daysInYear date.getFullYear - 1)
    (hdow : 0 ≤ h.dateDayOfWeek date cldr ∧ h.dateDayOfWeek date cldr ≤ 6)
    (hfd : 0 ≤ h.dateFirstDayOfWeek cldr ∧ h.dateFirstDayOfWeek cldr ≤ 6)
    (hmin : 1 ≤ cldr.minDays ∧ cldr.minDays ≤ 7) :
    format h date (String.mk (List.replicate (n + 1) 'Y')) cldr
      = format h date (String.mk (List.replicate (n + 1) 'y')) cldr := by
  have hy : (date.setDate ((date.getDate : Int) + 7
      - (h.dateDayOfWeek date cldr - h.dateFirstDayOfWeek cldr)
      - cldr.minDays)).getFullYear = date.getFullYear := by
    unfold Date.dayOfYear at h6 h12
    rw [makeDay_of_month_le _ _ _ hm] at h6 h12
    apply setDate_getFullYear
    · rw [makeDay_of_month_le _ _ _ hm]
      omega
    · rw [makeDay_of_month_le _ _ _ hm, dayFromYear_succ]
      omega
  rw [format_run_value h date cldr 'Y' (by decide) (by decide) (by decide) n _ true
      (switchChr_Y h date cldr (n + 1)),
    format_run_value h date cldr 'y' (by decide) (by decide) (by decide) n _ true
      (switchChr_y h date cldr (n + 1)), hy]

theorem format_week_year_eq_year_witness :
    format sampleHelpers sampleDate "YYYY" englishCldr
      = format sampleHelpers sampleDate "yyyy" englishCldr :=
  format_week_year_eq_year sampleHelpers sampleDate englishCldr 3 (by decide) (by decide)
    (by decide) (by decide) (by decide) (by decide)

/-! ## Fractional seconds -/

theorem digitChar_isDigit (k : Nat) (hk : k < 10) : (Nat.digitChar k).isDigit = true := by
  interval_cases k <;> rfl

theorem toDigits_all_digits (n : Nat) : ∀ c ∈ Nat.toDigits 10 n, c.isDigit = true := by
  induction n using Nat.strong_induction_on with
  | _ n ih =>
    by_cases hn : n < 10
    · rw [toDigits_small n hn]
      intro c hc
      rw [List.mem_singleton] at hc
      rw [hc]
      exact digitChar_isDigit n hn
    · rw [toDigits_step n (by omega)]
      intro c hc
      rcases List.mem_append.mp hc with hc | hc
      · exact ih (n / 10) (by omega) c hc
      · rw [List.mem_singleton] at hc
        rw [hc]
        exact digitChar_isDigit _ (Nat.mod_lt _ (by decide))

theorem stringPad_all_digits (n count : Nat) :
    ∀ c ∈ (stringPad (toString n) count).data, c.isDigit = true := by
  intro c hc
  rw [stringPad_data] at hc
  rcases List.mem_append.mp hc with hc | hc
  · rw [List.eq_of_mem_replicate hc]
    rfl
  · exact toDigits_all_digits n c hc

theorem roundScaled_fraction (ms n : Nat) (hn : n = 1 ∨ n = 2 ∨ n = 3) :
    roundScaled (ms : Int) ((n : Int) - 3) = ((roundedFraction ms n : Nat) : Int) := by
  unfold roundScaled roundedFraction
  rcases hn with rfl | rfl | rfl
  · have e : (-(((1 : Nat) : Int) - 3)).toNat = 2 := rfl
    rw [if_neg (by decide), e]
    norm_num
  · have e : (-(((2 : Nat) : Int) - 3)).toNat = 1 := rfl
    rw [if_neg (by decide), e]
    norm_num
  · norm_num
    omega

theorem format_S_value (h : Helpers) (date : Date) (cldr : Cldr) (n : Nat)
    (hn : n = 1 ∨ n = 2 ∨ n = 3) :
    format h date (String.mk (List.replicate n 'S')) cldr
      = .ok (stringPad (toString (roundedFraction date.getMilliseconds n)) n) := by
  obtain ⟨k, rfl⟩ : ∃ k, n = k + 1 := ⟨n - 1, by omega⟩
  have hs : switchChr h date cldr (String.mk ['S']) (k + 1)
      = .ok (.value (.number
          (roundScaled date.getMilliseconds (((k + 1 : Nat) : Int) - 3))) true) := rfl
  rw [format_run_value h date cldr 'S' (by decide) (by decide) (by decide) k _ true hs,
    roundScaled_fraction _ _ hn]
  simp only [Value.toJSString, toString_int_ofNat, if_true]

/-- C19, as stated, fails: 999 milliseconds round to 10 tenths, so the field
`S` of run length 1 has two characters. -/
theorem format_S_counterexample :
    format sampleHelpers { sampleDate with getMilliseconds := 999 } "S" englishCldr = .ok "10"
      ∧ format sampleHelpers { sampleDate with getMilliseconds := 999 } "SS" englishCldr
        = .ok "100" :=
  ⟨rfl, rfl⟩

/-- C19 (amended): for milliseconds in 0..999 and a run length `n` in 1..3 the
field `S` is the rounded value of `ms * 10 ^ (n - 3)`, zero-padded to `n`
characters: all its characters are decimal digits, it has exactly `n`
characters unless rounding carries to `10 ^ n` (from 950 ms for `n = 1`, from
995 ms for `n = 2`), when it is "10" or "100" with `n + 1` characters, and for
`n = 3` it is the milliseconds zero-padded to three digits. -/
theorem format_S_field (h : Helpers) (date : Date) (cldr : Cldr) (n : Nat)
    (hms : date.getMilliseconds ≤ 999) (hn : n = 1 ∨ n = 2 ∨ n = 3) :
    ∃ s : String, format h date (String.mk (List.replicate n 'S')) cldr = .ok s
      ∧ s = stringPad (toString (roundedFraction date.getMilliseconds n)) n
      ∧ (∀ c ∈ s.data, c.isDigit = true)
      ∧ (2 * date.getMilliseconds + 10 ^ (3 - n) < 2000 → s.length = n)
      ∧ (2000 ≤ 2 * date.getMilliseconds + 10 ^ (3 - n) →
          s = toString (10 ^ n) ∧ s.length = n + 1)
      ∧ (n = 3 → s = stringPad (toString date.getMilliseconds) 3) := by
  refine ⟨_, format_S_value h date cldr n hn, rfl, stringPad_all_digits _ _, ?_, ?_, ?_⟩
  · intro hlt
    have hv : roundedFraction date.getMilliseconds n < 10 ^ n := by
      unfold roundedFraction
      rcases hn with rfl | rfl | rfl <;> norm_num at hlt ⊢ <;> omega
    have hlen : (toString (roundedFraction date.getMilliseconds n)).length ≤ n :=
      Nat.repr_length _ n (by omega) hv
    rw [stringPad_length, Nat.max_eq_left hlen]
  · intro hge
    have hv : roundedFraction date.getMilliseconds n = 10 ^ n := by
      unfold roundedFraction
      rcases hn with rfl | rfl | rfl <;> norm_num at hge ⊢ <;> omega
    rw [hv]
    rcases hn with rfl | rfl | rfl
    · exact ⟨rfl, rfl⟩
    · exact ⟨rfl, rfl⟩
    · norm_num at hge
      omega
  · intro h3
    subst h3
    have hv : roundedFraction date.getMilliseconds 3 = date.getMilliseconds := by
      unfold roundedFraction
      norm_num
      omega
    rw [hv]

theorem format_S_field_witness :
    ∃ s : String, format sampleHelpers sampleDate (String.mk (List.replicate 3 'S')) englishCldr
        = .ok s
      ∧ s = stringPad (toString (roundedFraction sampleDate.getMilliseconds 3)) 3
      ∧ (∀ c ∈ s.data, c.isDigit = true)
      ∧ (2 * sampleDate.getMilliseconds + 10 ^ (3 - 3) < 2000 → s.length = 3)
      ∧ (2000 ≤ 2 * sampleDate.getMilliseconds + 10 ^ (3 - 3) →
          s = toString (10 ^ 3) ∧ s.length = 3 + 1)
      ∧ (3 = 3 → s = stringPad (toString sampleDate.getMilliseconds) 3) :=
  format_S_field sampleHelpers sampleDate englishCldr 3 (by decide) (by decide)
/-! ## Concatenation of patterns -/

theorem replaceElementsState_date (h : Helpers) (cldr : Cldr) (date : Date) (ts : List String)
    (s : String) (d : Date)
    (hs : replaceElementsState (formatElementState h cldr) date ts = .ok (s, d)) : d = date := by
  rw [replaceElementsState_eq] at hs
  cases hr : replaceElements (formatElement h date cldr) ts with
  | error e =>
    rw [hr] at hs
    cases hs
  | ok r =>
    rw [hr] at hs
    cases hs
    rfl

/-- C20, as stated, fails: the patterns `'` and `yy'` do not split a field run,
yet their concatenation `'yy'` is quoted text and is passed through unchanged,
while the parts give `'` and `23'`. -/
theorem format_concat_counterexample :
    ¬ splitsRun "'".data "yy'".data
      ∧ format sampleHelpers sampleDate "'" englishCldr = .ok "'"
      ∧ format sampleHelpers sampleDate "yy'" englishCldr = .ok "23'"
      ∧ format sampleHelpers sampleDate ("'" ++ "yy'") englishCldr = .ok "'yy'" :=
  ⟨by decide, rfl, rfl, rfl⟩

/-- C20 (amended): when the join of two patterns neither splits a field run nor
falls inside quoted text, formatting the concatenation is formatting the parts
in order: two successes are concatenated, and a failure of either part is the
failure of the whole (the first one in pattern order). No element changes the
object `date`: the replacement loop ends in the state of `date` it started in,
so a field `Y` in the first part leaves the instant of the second part as it
was. -/
theorem format_concat (h : Helpers) (date : Date) (cldr : Cldr) (p q : String)
    (hj : ¬ splitsRun p.data q.data) (hq : ¬ splitsQuote p.data q.data) :
    (∀ s t, format h date p cldr = .ok s → format h date q cldr = .ok t →
        format h date (p ++ q) cldr = .ok (s ++ t))
      ∧ (∀ e, format h date p cldr = .error e → format h date (p ++ q) cldr = .error e)
      ∧ (∀ s e, format h date p cldr = .ok s → format h date q cldr = .error e →
        format h date (p ++ q) cldr = .error e)
      ∧ (∀ s d, replaceElementsState (formatElementState h cldr) date (tokenize p.data)
          = .ok (s, d) → d = date) := by
  have key := format_append h date cldr p q hj hq
  refine ⟨?_, ?_, ?_, ?_⟩
  · intro s t hp hq
    rw [key, hp, hq]
    rfl
  · intro e hp
    rw [key, hp]
    rfl
  · intro s e hp hq
    rw [key, hp, hq]
    rfl
  · intro s d hs
    exact replaceElementsState_date h cldr date _ s d hs

theorem format_concat_witness :
    format sampleHelpers { sampleDate with getMonth := 11, getDate := 31 } ("YYYY" ++ "-MM-dd")
        englishCldr = .ok ("2024" ++ "-12-31")
      ∧ format sampleHelpers sampleDate ("'on' yyyy " ++ "u") englishCldr
        = .error .notImplemented :=
  ⟨(format_concat sampleHelpers { sampleDate with getMonth := 11, getDate := 31 } englishCldr
      "YYYY" "-MM-dd" (by decide) (by decide)).1 "2024" "-12-31" rfl rfl,
    (format_concat sampleHelpers sampleDate englishCldr "'on' yyyy " "u" (by decide)
      (by decide)).2.2.1 "'on' 2023 " .notImplemented rfl rfl⟩

end Globalize
